import Mathlib

/-!
Formal model of the people-counter-system repository (src/counter.py and
src/tracker.py), together with proofs of the specification claims.

Conventions of the embedding:
* Python ints are modelled as `Int` (coordinates) or `Nat` (counters that the
  code never drives below zero).
* Python floats appear only as detection confidences, IoU values, timestamps,
  and the two square-root comparisons in `counter.py`.  Confidences, IoU
  values and timestamps are modelled exactly over `Rat` (the code only ever
  divides, compares and copies them).  The two square-root comparisons are
  replaced by the equivalent squared comparisons over `Int`:
    - `sqrt dSq >= m` (with `m : Nat`) iff `dSq >= m*m`,
    - `|v| / sqrt s > r` (with `s > 0`) iff `v*v > r*r*s`, and for the
      degenerate guard `s = 0` the code defines the distance as `0`, in which
      case `v = 0` as well (a line with equal endpoints has `a = b = c = 0`),
      so both sides of the equivalence are false.
  These equivalences are exact for the integer inputs the code computes with.
* Python dicts keyed by track id are modelled as insertion-ordered association
  lists with unique keys (`Dict`): assignment updates an existing entry in
  place or appends a new one, deletion removes the entry, iteration follows
  list order, exactly the semantics of a Python dict.
* `counting_history` entries carry the float timestamp passed by the caller;
  it is stored verbatim and never inspected.
-/

namespace PeopleCounter

/-- Association-list model of a Python dict keyed by track id. -/
abbrev Dict (α : Type) : Type := List (Int × α)

/-- Lookup `m[k]` (first entry with the key; keys are unique). -/
def Dict.lookup {α : Type} (m : Dict α) (k : Int) : Option α :=
  match m with
  | [] => none
  | (k', v) :: rest => if k = k' then some v else Dict.lookup rest k

/-- Assignment `m[k] = v`: update the existing entry in place or append. -/
def Dict.set {α : Type} (m : Dict α) (k : Int) (v : α) : Dict α :=
  match m with
  | [] => [(k, v)]
  | (k', v') :: rest =>
      if k = k' then (k, v) :: rest else (k', v') :: Dict.set rest k v

/-- Deletion `del m[k]` (keys are unique, so filtering removes one entry). -/
def Dict.del {α : Type} (m : Dict α) (k : Int) : Dict α :=
  m.filter (fun p => p.1 ≠ k)

/-- Side of the counting line, the `"enter"` / `"exit"` strings of the code. -/
inductive Side where
  | enter : Side
  | exit : Side
deriving DecidableEq, Repr

/-- Input tuple `(x1, y1, x2, y2, track_id, confidence)` fed to
`LineCounter.update`.  The confidence is never read by the counter. -/
structure CTrack where
  x1 : Int
  y1 : Int
  x2 : Int
  y2 : Int
  track_id : Int
  conf : Rat
deriving DecidableEq, Repr

/-- Entry appended to `counting_history` on each counted crossing. -/
structure CountEvent where
  timestamp : Rat
  track_id : Int
  direction : Side
  total_enter : Nat
  total_exit : Nat
deriving DecidableEq, Repr

/-- State of `LineCounter` (src/counter.py).  Configuration fields hold the
constants set in `__init__`. -/
structure LineCounter where
  line_start : Int × Int
  line_end : Int × Int
  track_positions : Dict (Int × Int)
  track_sides : Dict Side
  track_crossed : Dict Bool
  track_lost_frames : Dict Nat
  total_enter : Nat
  total_exit : Nat
  current_occupancy : Nat
  counting_history : List CountEvent
  min_crossing_distance : Nat
  lost_frame_threshold : Nat
  crossing_reset_distance : Nat

/-- Constructor `LineCounter.__init__`: empty dicts, zero counters, and the
hard-coded configuration constants (2, 30, 20).  The `direction` string only
selects the descriptive `enter_side`/`exit_side` labels, which are never used
by `update`, so it is not part of the state. -/
def LineCounter.init (ls le : Int × Int) : LineCounter where
  line_start := ls
  line_end := le
  track_positions := []
  track_sides := []
  track_crossed := []
  track_lost_frames := []
  total_enter := 0
  total_exit := 0
  current_occupancy := 0
  counting_history := []
  min_crossing_distance := 2
  lost_frame_threshold := 30
  crossing_reset_distance := 20

/-- Coefficients `(a, b, c)` of `get_line_equation`:
`a = y2 - y1`, `b = -(x2 - x1)`, `c = (x2 - x1)*y1 - (y2 - y1)*x1`. -/
def LineCounter.lineEq (lc : LineCounter) : Int × Int × Int :=
  let x1 := lc.line_start.1
  let y1 := lc.line_start.2
  let x2 := lc.line_end.1
  let y2 := lc.line_end.2
  (y2 - y1, -(x2 - x1), (x2 - x1) * y1 - (y2 - y1) * x1)

/-- Value `a*x + b*y + c`, the numerator of the signed distance of
`point_to_line_distance`.  The signed distance is this value divided by
`sqrt (a^2 + b^2)` (or `0` when `a^2 + b^2 = 0`, in which case the numerator
is `0` too), so the sign of the distance is the sign of this value. -/
def LineCounter.lineVal (lc : LineCounter) (p : Int × Int) : Int :=
  let e := lc.lineEq
  e.1 * p.1 + e.2.1 * p.2 + e.2.2

/-- Side classification `get_point_side`: the code returns `"enter"` iff the
signed distance is `< 0`, which holds iff the numerator `a*x + b*y + c` is
negative (both the horizontal and the vertical branch of the code test the
same condition). -/
def LineCounter.sideOf (lc : LineCounter) (p : Int × Int) : Side :=
  if lc.lineVal p < 0 then Side.enter else Side.exit

/-- Body of the `for track in tracks` loop of `LineCounter.update` for one
input track: crossing detection, counting, debounce-flag reset, and the
shadow-record update.  Square-root comparisons are replaced by the equivalent
squared integer comparisons (see the module comment). -/
def LineCounter.processTrack (lc : LineCounter) (timestamp : Rat)
    (tr : CTrack) : LineCounter :=
  let cx := Int.fdiv (tr.x1 + tr.x2) 2
  let cy := Int.fdiv (tr.y1 + tr.y2) 2
  let center := (cx, cy)
  -- `if track_id in self.track_lost_frames: del self.track_lost_frames[...]`
  let lc := { lc with
    track_lost_frames := lc.track_lost_frames.del tr.track_id }
  let currentSide := lc.sideOf center
  let lc :=
    match lc.track_positions.lookup tr.track_id with
    | none =>
        -- New track: initialize the shadow record (the final
        -- `track_positions`/`track_sides` assignment below writes the same
        -- values again, as in the code).
        { lc with track_crossed := lc.track_crossed.set tr.track_id false }
    | some prev =>
        let previousSide := (lc.track_sides.lookup tr.track_id).getD currentSide
        let dx := cx - prev.1
        let dy := cy - prev.2
        -- `distance_moved^2`; `distance_moved >= min_crossing_distance` iff
        -- `distSq >= min_crossing_distance^2`.
        let distSq := dx * dx + dy * dy
        let minSq := (lc.min_crossing_distance : Int) * (lc.min_crossing_distance : Int)
        if previousSide ≠ currentSide then
          let hasCrossed := (lc.track_crossed.lookup tr.track_id).getD false
          if ¬hasCrossed ∧ minSq ≤ distSq then
            if currentSide = Side.enter then
              let lc := { lc with
                total_enter := lc.total_enter + 1,
                current_occupancy := lc.current_occupancy + 1,
                track_crossed := lc.track_crossed.set tr.track_id true }
              { lc with counting_history := lc.counting_history ++
                  [CountEvent.mk timestamp tr.track_id Side.enter
                    lc.total_enter lc.total_exit] }
            else
              -- `current_occupancy = max(0, current_occupancy - 1)` is
              -- truncated subtraction on `Nat`.
              let lc := { lc with
                total_exit := lc.total_exit + 1,
                current_occupancy := lc.current_occupancy - 1,
                track_crossed := lc.track_crossed.set tr.track_id true }
              { lc with counting_history := lc.counting_history ++
                  [CountEvent.mk timestamp tr.track_id Side.exit
                    lc.total_enter lc.total_exit] }
          else lc
        else
          -- Side unchanged: possibly re-arm the counted flag.
          if (lc.track_crossed.lookup tr.track_id).getD false then
            let e := lc.lineEq
            let v := lc.lineVal center
            let rSq := (lc.crossing_reset_distance : Int) * (lc.crossing_reset_distance : Int)
            -- `abs(point_to_line_distance center) > crossing_reset_distance`
            -- iff `v^2 > reset^2 * (a^2 + b^2)`.
            if rSq * (e.1 * e.1 + e.2.1 * e.2.1) < v * v ∧ minSq ≤ distSq then
              { lc with track_crossed := lc.track_crossed.set tr.track_id false }
            else lc
          else lc
  -- Final shadow-record update (lines 209-211 of counter.py).
  { lc with
    track_positions := lc.track_positions.set tr.track_id center,
    track_sides := lc.track_sides.set tr.track_id currentSide }

/-- One `LineCounter.update(tracks, timestamp)` call.  The Python method
returns `(total_enter, total_exit, current_occupancy)` of the post-state,
which are fields of the returned state here.  The `set` difference of step 3
is iterated in `track_positions` insertion order; the resulting dict content
(and hence all later behaviour, which is per-key) does not depend on that
order. -/
def LineCounter.withIncrementedLost (lc : LineCounter) : LineCounter :=
  { lc with
    track_lost_frames := lc.track_lost_frames.map
      (fun (p : Int × Nat) => (p.1, p.2 + 1)) }

def LineCounter.update (lc : LineCounter) (tracks : List CTrack)
    (timestamp : Rat) : LineCounter :=
  -- Step 1: increment every lost-frame counter.
  let lc := lc.withIncrementedLost
  -- Step 2: per-track processing, in list order.
  let currentIds := tracks.map CTrack.track_id
  let lc := tracks.foldl (fun s tr => s.processTrack timestamp tr) lc
  -- Step 3: start a lost-frame counter (at 0) for every known track id that
  -- is absent from this frame and has no counter yet.
  let lc := { lc with
    track_lost_frames := lc.track_positions.foldl
      (fun (m : Dict Nat) (p : Int × (Int × Int)) =>
        if p.1 ∉ currentIds ∧ (Dict.lookup m p.1) = none then m.set p.1 0 else m)
      lc.track_lost_frames }
  -- Step 4: delete every shadow record whose lost-frame counter has reached
  -- the threshold (ids are collected first in the code; deleting them from
  -- each dict removes exactly the entries satisfying `stale`).
  let stale : Int → Bool := fun i =>
    match lc.track_lost_frames.lookup i with
    | some n => lc.lost_frame_threshold ≤ n
    | none => false
  { lc with
    track_positions := lc.track_positions.filter (fun p => !stale p.fst),
    track_sides := lc.track_sides.filter (fun p => !stale p.fst),
    track_crossed := lc.track_crossed.filter (fun p => !stale p.fst),
    track_lost_frames := lc.track_lost_frames.filter (fun p => !stale p.fst) }

/-- Iterated `update` calls: each input is a frame's track list plus its
timestamp. -/
def LineCounter.run (lc : LineCounter) (inputs : List (List CTrack × Rat)) :
    LineCounter :=
  inputs.foldl (fun s inp => s.update inp.1 inp.2) lc

/-- Slack of the occupancy over the raw difference of the totals; it is `0`
on a fresh counter and grows by one each time an exit is counted while the
occupancy is already `0` (the floor of line 178 of counter.py). -/
def LineCounter.occDiff (lc : LineCounter) : Int :=
  (lc.current_occupancy : Int) -
    ((lc.total_enter : Int) - (lc.total_exit : Int))

/-- Value of the lost-frame counter of an id after one `update` call in which
the id is absent from the input (before the purge step): the existing counter
is incremented by step 1, and step 3 starts a counter at `0` for a known id
that has none. -/
def LineCounter.absentLost (lc : LineCounter) (id : Int) : Option Nat :=
  let l1 := (Dict.lookup lc.track_lost_frames id).map (· + 1)
  if (Dict.lookup lc.track_positions id).isSome = true ∧ l1 = none then some 0
  else l1

/-- Whether an id absent from the input of one `update` call gets purged by
step 4 of that call. -/
def LineCounter.absentStale (lc : LineCounter) (id : Int) : Bool :=
  match lc.absentLost id with
  | some n => decide (lc.lost_frame_threshold ≤ n)
  | none => false

/-- Counter of the worked scenario of the spec: the vertical counting line
from (50, 0) to (50, 100), so `a = 100`, `b = 0`, `c = -5000` and the signed
distance of a point is `x - 50`. -/
def scenarioCounter : LineCounter := LineCounter.init (50, 0) (50, 100)

/-- Inputs of the worked scenario: track id 7 seen at centers x = 40, 60, 65,
90, 30 (all at y = 50, as zero-size boxes whose midpoint is exact), one call
per frame with timestamps 0..4. -/
def scenarioInputs : List (List CTrack × Rat) :=
  [([CTrack.mk 40 50 40 50 7 1], 0),
   ([CTrack.mk 60 50 60 50 7 1], 1),
   ([CTrack.mk 65 50 65 50 7 1], 2),
   ([CTrack.mk 90 50 90 50 7 1], 3),
   ([CTrack.mk 30 50 30 50 7 1], 4)]

/-- State of the worked scenario after its first `k` calls. -/
def scenarioState (k : Nat) : LineCounter :=
  scenarioCounter.run (scenarioInputs.take k)

/-- State of one tracked person (class `Track` of src/tracker.py).  The
history deque of capacity 30 is a list holding the most recent centers. -/
structure Track where
  track_id : Nat
  bbox : Int × Int × Int × Int
  conf : Rat
  hits : Nat
  time_since_update : Nat
  history : List (Int × Int)
deriving DecidableEq, Repr

/-- Center of a bounding box `(x1, y1, x2, y2)`: Python floor division
`(x1 + x2) // 2` is `Int.fdiv`. -/
def boxCenter (b : Int × Int × Int × Int) : Int × Int :=
  (Int.fdiv (b.1 + b.2.2.1) 2, Int.fdiv (b.2.1 + b.2.2.2) 2)

/-- Append to the history deque, evicting the oldest entries beyond the
capacity of 30. -/
def pushHistory (h : List (Int × Int)) (c : Int × Int) : List (Int × Int) :=
  let h' := h ++ [c]
  h'.drop (h'.length - 30)

/-- Constructor `Track.__init__`: one hit, fresh update clock, history
holding the center of the initial box. -/
def Track.new (id : Nat) (bbox : Int × Int × Int × Int) (conf : Rat) :
    Track where
  track_id := id
  bbox := bbox
  conf := conf
  hits := 1
  time_since_update := 0
  history := pushHistory [] (boxCenter bbox)

/-- Method `Track.update`: adopt the detection's box and confidence, count
the hit, reset the update clock, push the new center. -/
def Track.update (t : Track) (bbox : Int × Int × Int × Int) (conf : Rat) :
    Track :=
  { t with
    bbox := bbox
    conf := conf
    hits := t.hits + 1
    time_since_update := 0
    history := pushHistory t.history (boxCenter bbox) }

/-- Method `Track.predict`: simple linear extrapolation from the last two
centers (never called by `ByteTracker.update`; included for completeness). -/
def Track.predict (t : Track) : Int × Int :=
  match t.history.reverse with
  | a :: b :: _ => (a.1 + (a.1 - b.1), a.2 + (a.2 - b.2))
  | [a] => a
  | [] => (0, 0)

/-- Detection tuple `(x1, y1, x2, y2, confidence)` fed to
`ByteTracker.update`. -/
structure Det where
  x1 : Int
  y1 : Int
  x2 : Int
  y2 : Int
  conf : Rat
deriving DecidableEq, Repr

/-- Box part of a detection. -/
def Det.box (d : Det) : Int × Int × Int × Int := (d.x1, d.y1, d.x2, d.y2)

/-- Method `ByteTracker._iou`: intersection over union of two boxes, `0` for
empty intersections and guarded against a non-positive union.  Python's float
division is modelled exactly over `Rat`. -/
def iou (box1 box2 : Int × Int × Int × Int) : Rat :=
  let inter_x_min := max box1.1 box2.1
  let inter_y_min := max box1.2.1 box2.2.1
  let inter_x_max := min box1.2.2.1 box2.2.2.1
  let inter_y_max := min box1.2.2.2 box2.2.2.2
  if inter_x_max < inter_x_min ∨ inter_y_max < inter_y_min then 0
  else
    let inter_area := (inter_x_max - inter_x_min) * (inter_y_max - inter_y_min)
    let box1_area := (box1.2.2.1 - box1.1) * (box1.2.2.2 - box1.2.1)
    let box2_area := (box2.2.2.1 - box2.1) * (box2.2.2.2 - box2.2.1)
    let union_area := box1_area + box2_area - inter_area
    -- Exact rational division `inter_area / union_area`; `mkRat` is used
    -- because `Rat.inv` (behind `/`) is irreducible and would block
    -- evaluation, and `mkRat n d = n / d` (the union is positive here).
    if 0 < union_area then mkRat inter_area union_area.toNat else 0

/-- Candidate entry `(t, d, iou_matrix[t, d])` of the association loop. -/
abbrev Cand := Nat × Nat × Rat

/-- Strict order on candidates in original enumeration order: track index
first, then detection index. -/
def candLexLt (a b : Cand) : Prop :=
  a.1 < b.1 ∨ (a.1 = b.1 ∧ a.2.1 < b.2.1)

/-- Insertion step of a stable descending sort on the IoU value: the new
element passes every earlier element with an equal or larger value, so
earlier candidates keep their place on ties — the behaviour of Python's
stable `list.sort(key=..., reverse=True)`. -/
def insortDesc (x : Cand) : List Cand → List Cand
  | [] => [x]
  | y :: ys => if y.2.2 < x.2.2 then x :: y :: ys else y :: insortDesc x ys

/-- Stable descending sort by IoU value (`matches.sort(key=lambda x: x[2],
reverse=True)`). -/
def sortDesc (l : List Cand) : List Cand :=
  l.foldl (fun acc x => insortDesc x acc) []

/-- Candidate collection of `_associate_detections_to_trackers`: both nested
loops enumerate in index order and keep the pairs at or above the
threshold. -/
def candidates (T D : Nat) (f : Nat → Nat → Rat) (thr : Rat) : List Cand :=
  (List.range T).flatMap
    (fun t => (List.range D).filterMap
      (fun d => if thr ≤ f t d then some (t, d, f t d) else none))

/-- Greedy acceptance step: accept the candidate when its track and
detection are both still unassigned, removing them from the unmatched
lists. -/
def greedyStep (st : List (Nat × Nat) × List Nat × List Nat) (c : Cand) :
    List (Nat × Nat) × List Nat × List Nat :=
  if c.1 ∈ st.2.1 ∧ c.2.1 ∈ st.2.2 then
    (st.1 ++ [(c.1, c.2.1)], st.2.1.erase c.1, st.2.2.erase c.2.1)
  else st

/-- Default values handed to `List.getD`; every index the tracker uses is in
range, so they are never read. -/
def defaultTrack : Track := Track.new 0 (0, 0, 0, 0) 0

def defaultDet : Det := Det.mk 0 0 0 0 0

/-- Method `ByteTracker._associate_detections_to_trackers` (note the
argument order: detections first, tracks second, exactly as in the code). -/
def associate (dets : List Det) (tracks : List Track) (thr : Rat) :
    List (Nat × Nat) × List Nat × List Nat :=
  if tracks = [] then ([], [], List.range dets.length)
  else if dets = [] then ([], List.range tracks.length, [])
  else
    let f : Nat → Nat → Rat := fun t d =>
      iou (tracks.getD t defaultTrack).bbox (dets.getD d defaultDet).box
    let cands := candidates tracks.length dets.length f thr
    (sortDesc cands).foldl greedyStep
      ([], List.range tracks.length, List.range dets.length)

/-- Reference associator, following the specification's words (§4.1): collect
all pairs with IoU at or above the threshold as candidates; sort them by IoU
descending with ties broken by original enumeration order (track index, then
detection index); greedily accept each candidate whose track and detection
are both still unassigned; the unmatched indices are the complements of the
accepted ones. -/
def insortSpec (x : Cand) : List Cand → List Cand
  | [] => [x]
  | y :: ys =>
      if y.2.2 < x.2.2 ∨
          (x.2.2 = y.2.2 ∧ (x.1 < y.1 ∨ (x.1 = y.1 ∧ x.2.1 < y.2.1))) then
        x :: y :: ys
      else y :: insortSpec x ys

/-- Sort of the reference associator: IoU descending, ties in enumeration
order. -/
def sortSpec (l : List Cand) : List Cand :=
  l.foldl (fun acc x => insortSpec x acc) []

/-- Acceptance step of the reference associator: accept the candidate when
neither its track index nor its detection index has been accepted yet. -/
def specGreedyStep (acc : List (Nat × Nat)) (c : Cand) : List (Nat × Nat) :=
  if c.1 ∉ acc.map Prod.fst ∧ c.2.1 ∉ acc.map Prod.snd then
    acc ++ [(c.1, c.2.1)]
  else acc

/-- Greedy acceptance of the reference associator. -/
def specGreedy (cands : List Cand) : List (Nat × Nat) :=
  cands.foldl specGreedyStep []

/-- Reference associator of the specification, to be compared with
`associate`. -/
def specAssociate (dets : List Det) (tracks : List Track) (thr : Rat) :
    List (Nat × Nat) × List Nat × List Nat :=
  let f : Nat → Nat → Rat := fun t d =>
    iou (tracks.getD t defaultTrack).bbox (dets.getD d defaultDet).box
  let accepted := specGreedy (sortSpec (candidates tracks.length dets.length f thr))
  (accepted,
   (List.range tracks.length).filter
     (fun t => decide (t ∉ accepted.map Prod.fst)),
   (List.range dets.length).filter
     (fun d => decide (d ∉ accepted.map Prod.snd)))

/-- State of `ByteTracker` (src/tracker.py): configuration, the three track
lists, the frame counter and the id allocator. -/
structure ByteTracker where
  max_age : Nat
  min_hits : Nat
  iou_threshold : Rat
  track_thresh : Rat
  high_thresh : Rat
  match_thresh : Rat
  tracked_tracks : List Track
  lost_tracks : List Track
  removed_tracks : List Track
  frame_count : Nat
  next_id : Nat
deriving Repr

/-- Constructor `ByteTracker.__init__`. -/
def ByteTracker.init (max_age min_hits : Nat)
    (iou_threshold track_thresh high_thresh match_thresh : Rat) :
    ByteTracker where
  max_age := max_age
  min_hits := min_hits
  iou_threshold := iou_threshold
  track_thresh := track_thresh
  high_thresh := high_thresh
  match_thresh := match_thresh
  tracked_tracks := []
  lost_tracks := []
  removed_tracks := []
  frame_count := 0
  next_id := 1

/-- Tracker with the default configuration
(`max_age=30, min_hits=3, iou_threshold=0.3, track_thresh=0.5,
high_thresh=0.6, match_thresh=0.8`). -/
def ByteTracker.initDefault : ByteTracker :=
  ByteTracker.init 30 3 (mkRat 3 10) (mkRat 5 10) (mkRat 6 10) (mkRat 8 10)

/-- Output tuple `(x1, y1, x2, y2, track_id, confidence)` of
`ByteTracker.update`. -/
structure OutTrack where
  x1 : Int
  y1 : Int
  x2 : Int
  y2 : Int
  track_id : Nat
  conf : Rat
deriving DecidableEq, Repr

/-- Output tuple of a track. -/
def Track.toOut (t : Track) : OutTrack where
  x1 := t.bbox.1
  y1 := t.bbox.2.1
  x2 := t.bbox.2.2.1
  y2 := t.bbox.2.2.2
  track_id := t.track_id
  conf := t.conf

/-- In-place update of the tracks at the matched indices (lines 111-114 of
tracker.py): Python mutates the `Track` objects inside the list, which is an
indexed overwrite here. -/
def applyMatches (l : List Track) (dets : List Det)
    (matched : List (Nat × Nat)) : List Track :=
  matched.foldl
    (fun acc m =>
      let det := dets.getD m.2 defaultDet
      acc.set m.1 ((acc.getD m.1 defaultTrack).update det.box det.conf))
    l

/-- Removal of the entries at the given indices (Python removes the collected
objects by identity; objects at distinct indices are distinct, so exactly the
entries at those indices disappear). -/
def removeIdxs (l : List Track) (idxs : List Nat) : List Track :=
  (l.enum.filter (fun p => decide (p.1 ∉ idxs))).map Prod.snd

/-- Creation of new tracks for the unmatched detection indices (lines 138-144
of tracker.py), threading the id allocator; the confidence recheck of line
141 is kept although it always succeeds on the high-confidence list. -/
def createTracks (dets : List Det) (thresh : Rat) (dIdxs : List Nat)
    (acc : List Track) (nid : Nat) : List Track × Nat :=
  dIdxs.foldl
    (fun (acc : List Track × Nat) dIdx =>
      let det := dets.getD dIdx defaultDet
      if thresh ≤ det.conf then
        (acc.1 ++ [Track.new acc.2 det.box det.conf], acc.2 + 1)
      else acc)
    (acc, nid)

/-- First half of `ByteTracker.update` (lines 102-144): advance the update
clocks, associate the high-confidence detections against the tracked tracks,
apply the matches, move unmatched tracks to removed/lost, and create new
tracks for unmatched detections.  Python mutates `Track` objects in place and
removes them from lists by object identity; the same net effect is expressed
by indexed updates (`List.set`) and by keeping exactly the entries whose
index is not scheduled for removal (objects at distinct indices are
distinct, so identity removal removes exactly those entries).
Returns `(tracked, lost, removed, next_id)` after this half. -/
def ByteTracker.updateTrackedPhase (bt : ByteTracker)
    (high_conf_dets : List Det) : List Track × List Track × List Track × Nat :=
  -- Line 102: advance the update clock of every tracked track.
  let tracked1 := bt.tracked_tracks.map
    (fun t => { t with time_since_update := t.time_since_update + 1 })
  -- Associator call 1.
  let assoc := associate high_conf_dets tracked1 bt.iou_threshold
  let matched := assoc.1
  let unmatched_tracks := assoc.2.1
  let unmatched_dets := assoc.2.2
  -- Lines 111-114: update matched tracks in place.
  let tracked2 := applyMatches tracked1 high_conf_dets matched
  -- Lines 117-125: classify unmatched tracks (the bounds check of line 120
  -- is kept although every index is in range).
  let unmatchedElems := (unmatched_tracks.filter
    (fun i => decide (i < tracked2.length))).map
      (fun i => tracked2.getD i defaultTrack)
  let tracks_to_remove := unmatchedElems.filter
    (fun t => decide (bt.max_age < t.time_since_update))
  let tracks_to_lose := unmatchedElems.filter
    (fun t => decide (t.time_since_update ≤ bt.max_age))
  -- Lines 127-136: remove them from the tracked list, append to
  -- removed / lost.
  let tracked3 := removeIdxs tracked2 unmatched_tracks
  -- Lines 138-144: new tracks for unmatched high-confidence detections.
  let created := createTracks high_conf_dets bt.high_thresh unmatched_dets
    tracked3 bt.next_id
  (created.1, bt.lost_tracks ++ tracks_to_lose,
    bt.removed_tracks ++ tracks_to_remove, created.2)

/-- Second half of `ByteTracker.update` (lines 146-166): associate the
low-confidence detections against the lost tracks, reactivate the matches
into the tracked list, and drop lost tracks past `max_age`.
Returns `(tracked, lost)` after this half. -/
def ByteTracker.updateLostPhase (bt : ByteTracker) (low_conf_dets : List Det)
    (tracked4 lost1 : List Track) : List Track × List Track :=
  -- Associator call 2.
  let assocLow := associate low_conf_dets lost1 bt.iou_threshold
  let matched_low := assocLow.1
  -- Lines 152-163: update matched lost tracks, move them back to tracked.
  let reactivated := matched_low.map
    (fun m =>
      let det := low_conf_dets.getD m.2 defaultDet
      (lost1.getD m.1 defaultTrack).update det.box det.conf)
  let matchedLostIdxs := matched_low.map Prod.fst
  let lost2 := removeIdxs lost1 matchedLostIdxs
  -- Line 166: drop lost tracks past max_age.
  let lost3 := lost2.filter (fun t => decide (t.time_since_update ≤ bt.max_age))
  (tracked4 ++ reactivated, lost3)

/-- Method `ByteTracker.update`: frame counter, confidence partition, the two
association phases, and the confirmed-track output. -/
def ByteTracker.update (bt : ByteTracker) (detections : List Det) :
    List OutTrack × ByteTracker :=
  let bt := { bt with frame_count := bt.frame_count + 1 }
  -- Separate high and low confidence detections.
  let high_conf_dets := detections.filter
    (fun d => decide (bt.high_thresh ≤ d.conf))
  let low_conf_dets := detections.filter
    (fun d => decide (d.conf < bt.high_thresh ∧ bt.track_thresh ≤ d.conf))
  let ph1 := bt.updateTrackedPhase high_conf_dets
  let ph2 := bt.updateLostPhase low_conf_dets ph1.1 ph1.2.1
  -- Lines 169-175: emit confirmed tracks.
  let output := (ph2.1.filter
    (fun t => decide (bt.min_hits ≤ t.hits))).map Track.toOut
  (output,
   { bt with
     tracked_tracks := ph2.1
     lost_tracks := ph2.2
     removed_tracks := ph1.2.2.1
     next_id := ph1.2.2.2 })

/-- Detection used by the concrete tracker scenarios: a high-confidence
(0.9 >= 0.6) box that overlaps itself perfectly across frames. -/
def demoDet : Det := Det.mk 0 0 10 10 (mkRat 9 10)

/-- All track ids currently held by the tracker, across the tracked, lost
and removed lists. -/
def allIds (bt : ByteTracker) : List Nat :=
  (bt.tracked_tracks ++ bt.lost_tracks ++ bt.removed_tracks).map Track.track_id

/-- Id-freshness invariant: all held ids are pairwise distinct and below the
allocator `next_id`. -/
def TrackerInv (bt : ByteTracker) : Prop :=
  (allIds bt).Nodup ∧ ∀ i ∈ allIds bt, i < bt.next_id

/-- Iterated `update` calls, discarding the per-frame outputs. -/
def ByteTracker.runFrames (bt : ByteTracker) (frames : List (List Det)) :
    ByteTracker :=
  frames.foldl (fun s f => (s.update f).2) bt

/-- Iterated `update` calls, collecting the per-frame outputs. -/
def ByteTracker.runOutputs (bt : ByteTracker) (frames : List (List Det)) :
    List (List OutTrack) × ByteTracker :=
  frames.foldl
    (fun (st : List (List OutTrack) × ByteTracker) f =>
      let r := st.2.update f
      (st.1 ++ [r.1], r.2))
    ([], bt)

end PeopleCounter

namespace PeopleCounter

theorem Dict.lookup_set_self {α : Type} (m : Dict α) (k : Int) (v : α) :
    Dict.lookup (m.set k v) k = some v := by
  induction m with
  | nil => simp [Dict.set, Dict.lookup]
  | cons hd tl ih =>
      by_cases h : k = hd.1
      · simp [Dict.set, h, Dict.lookup]
      · simp [Dict.set, h, Dict.lookup, ih]

theorem Dict.lookup_set_ne {α : Type} (m : Dict α) (k i : Int) (v : α)
    (h : i ≠ k) : Dict.lookup (m.set k v) i = Dict.lookup m i := by
  induction m with
  | nil => simp [Dict.set, Dict.lookup, h]
  | cons hd tl ih =>
      by_cases hk : k = hd.1
      · subst hk
        simp [Dict.set, Dict.lookup, h, ih]
      · simp [Dict.set, hk, Dict.lookup, ih]

theorem Dict.lookup_filter_key {α : Type} (m : Dict α) (f : Int → Bool)
    (i : Int) :
    Dict.lookup (m.filter (fun p => f p.1)) i =
      if f i then Dict.lookup m i else none := by
  induction m with
  | nil => simp [Dict.lookup]
  | cons hd tl ih =>
      by_cases hf : f hd.1
      · by_cases hi : i = hd.1
        · subst hi
          simp [List.filter, hf, Dict.lookup, ih]
        · simp [List.filter, hf, Dict.lookup, hi, ih]
      · by_cases hi : i = hd.1
        · subst hi
          simp [List.filter, hf, Dict.lookup, ih]
        · simp [List.filter, hf, Dict.lookup, hi, ih]

theorem Dict.lookup_del_ne {α : Type} (m : Dict α) (k i : Int) (h : i ≠ k) :
    Dict.lookup (m.del k) i = Dict.lookup m i := by
  have := Dict.lookup_filter_key m (fun j => decide (j ≠ k)) i
  simp [Dict.del] at this ⊢
  simp [this, h]

theorem Dict.lookup_map_val {α β : Type} (m : Dict α) (g : α → β) (i : Int) :
    Dict.lookup (m.map (fun p => (p.1, g p.2))) i =
      (Dict.lookup m i).map g := by
  induction m with
  | nil => simp [Dict.lookup]
  | cons hd tl ih =>
      by_cases hi : i = hd.1
      · simp [Dict.lookup, hi, ih]
      · simp [Dict.lookup, hi, ih]

theorem Dict.lookup_isSome_iff {α : Type} (m : Dict α) (i : Int) :
    (Dict.lookup m i).isSome = true ↔ ∃ q ∈ m, q.1 = i := by
  induction m with
  | nil => simp [Dict.lookup]
  | cons hd tl ih =>
      by_cases hi : i = hd.1
      · subst hi
        have hlk : Dict.lookup (hd :: tl) hd.1 = some hd.2 := by
          simp [Dict.lookup]
        rw [hlk]
        simp only [Option.isSome_some, true_iff]
        exact ⟨hd, List.mem_cons_self hd tl, rfl⟩
      · simp only [Dict.lookup, if_neg hi, ih]
        constructor
        · rintro ⟨q, hq, hq1⟩; exact ⟨q, List.mem_cons_of_mem hd hq, hq1⟩
        · rintro ⟨q, hq, hq1⟩
          rcases List.mem_cons.mp hq with h | h
          · subst h; exact absurd hq1.symm hi
          · exact ⟨q, h, hq1⟩

theorem LineCounter.processTrack_counters (lc : LineCounter) (ts : Rat)
    (tr : CTrack) :
    (let s := lc.processTrack ts tr
    (s.total_enter = lc.total_enter ∧ s.total_exit = lc.total_exit ∧
      s.current_occupancy = lc.current_occupancy) ∨
    (s.total_enter = lc.total_enter + 1 ∧ s.total_exit = lc.total_exit ∧
      s.current_occupancy = lc.current_occupancy + 1) ∨
    (s.total_enter = lc.total_enter ∧ s.total_exit = lc.total_exit + 1 ∧
      s.current_occupancy = lc.current_occupancy - 1)) := by
  unfold LineCounter.processTrack
  dsimp only
  split
  · exact Or.inl ⟨rfl, rfl, rfl⟩
  · split
    · split
      · split
        · exact Or.inr (Or.inl ⟨rfl, rfl, rfl⟩)
        · exact Or.inr (Or.inr ⟨rfl, rfl, rfl⟩)
      · exact Or.inl ⟨rfl, rfl, rfl⟩
    · split
      · split
        · exact Or.inl ⟨rfl, rfl, rfl⟩
        · exact Or.inl ⟨rfl, rfl, rfl⟩
      · exact Or.inl ⟨rfl, rfl, rfl⟩

theorem LineCounter.processTrack_config (lc : LineCounter) (ts : Rat)
    (tr : CTrack) :
    (lc.processTrack ts tr).min_crossing_distance = lc.min_crossing_distance ∧
    (lc.processTrack ts tr).lost_frame_threshold = lc.lost_frame_threshold ∧
    (lc.processTrack ts tr).crossing_reset_distance = lc.crossing_reset_distance ∧
    (lc.processTrack ts tr).line_start = lc.line_start ∧
    (lc.processTrack ts tr).line_end = lc.line_end := by
  unfold LineCounter.processTrack
  dsimp only
  split
  · exact ⟨rfl, rfl, rfl, rfl, rfl⟩
  all_goals (split <;> [skip; skip]) <;> first
    | exact ⟨rfl, rfl, rfl, rfl, rfl⟩
    | (split <;> first
        | exact ⟨rfl, rfl, rfl, rfl, rfl⟩
        | (split <;> exact ⟨rfl, rfl, rfl, rfl, rfl⟩))

theorem LineCounter.processTrack_occDiff (lc : LineCounter) (ts : Rat)
    (tr : CTrack) :
    (lc.processTrack ts tr).occDiff = lc.occDiff ∨
      ((lc.processTrack ts tr).occDiff = lc.occDiff + 1 ∧
        lc.current_occupancy = 0) := by
  have h := lc.processTrack_counters ts tr
  dsimp only at h
  unfold LineCounter.occDiff
  rcases h with ⟨h1, h2, h3⟩ | ⟨h1, h2, h3⟩ | ⟨h1, h2, h3⟩ <;>
    rw [h1, h2, h3] <;> by_cases hocc : lc.current_occupancy = 0 <;>
      [skip; skip; skip; skip; skip; skip] <;> omega

theorem LineCounter.foldl_counters (ts : Rat) (tracks : List CTrack) :
    ∀ lc : LineCounter,
      lc.total_enter ≤
        (tracks.foldl (fun s tr => s.processTrack ts tr) lc).total_enter ∧
      lc.total_exit ≤
        (tracks.foldl (fun s tr => s.processTrack ts tr) lc).total_exit ∧
      lc.occDiff ≤
        (tracks.foldl (fun s tr => s.processTrack ts tr) lc).occDiff := by
  induction tracks with
  | nil => intro lc; exact ⟨le_refl _, le_refl _, le_refl _⟩
  | cons hd tl ih =>
      intro lc
      have h1 := lc.processTrack_counters ts hd
      have h2 := lc.processTrack_occDiff ts hd
      dsimp only at h1
      have h3 := ih (lc.processTrack ts hd)
      simp only [List.foldl_cons]
      refine ⟨?_, ?_, ?_⟩
      · rcases h1 with ⟨e, _, _⟩ | ⟨e, _, _⟩ | ⟨e, _, _⟩ <;> omega
      · rcases h1 with ⟨_, x, _⟩ | ⟨_, x, _⟩ | ⟨_, x, _⟩ <;> omega
      · rcases h2 with d | ⟨d, _⟩ <;> omega

theorem LineCounter.update_counters (lc : LineCounter) (tracks : List CTrack)
    (ts : Rat) :
    lc.total_enter ≤ (lc.update tracks ts).total_enter ∧
    lc.total_exit ≤ (lc.update tracks ts).total_exit ∧
    lc.occDiff ≤ (lc.update tracks ts).occDiff := by
  have h := LineCounter.foldl_counters ts tracks lc.withIncrementedLost
  exact ⟨h.1, h.2.1, h.2.2⟩

theorem LineCounter.run_totals_mono (inputs : List (List CTrack × Rat)) :
    ∀ lc : LineCounter,
      lc.total_enter ≤ (lc.run inputs).total_enter ∧
      lc.total_exit ≤ (lc.run inputs).total_exit ∧
      lc.occDiff ≤ (lc.run inputs).occDiff := by
  induction inputs with
  | nil => intro lc; exact ⟨le_refl _, le_refl _, le_refl _⟩
  | cons hd tl ih =>
      intro lc
      have h1 := lc.update_counters hd.1 hd.2
      have h2 := ih (lc.update hd.1 hd.2)
      unfold LineCounter.run at h2 ⊢
      simp only [List.foldl_cons]
      exact ⟨le_trans h1.1 h2.1, le_trans h1.2.1 h2.2.1,
        le_trans h1.2.2 h2.2.2⟩

theorem LineCounter.run_append (lc : LineCounter)
    (a b : List (List CTrack × Rat)) :
    lc.run (a ++ b) = (lc.run a).run b := by
  unfold LineCounter.run
  exact List.foldl_append .. 

theorem LineCounter.init_occDiff (ls le : Int × Int) :
    (LineCounter.init ls le).occDiff = 0 := rfl

theorem LineCounter.processTrack_lookup_ne (lc : LineCounter) (ts : Rat)
    (tr : CTrack) (id : Int) (h : id ≠ tr.track_id) :
    Dict.lookup (lc.processTrack ts tr).track_positions id =
      Dict.lookup lc.track_positions id ∧
    Dict.lookup (lc.processTrack ts tr).track_sides id =
      Dict.lookup lc.track_sides id ∧
    Dict.lookup (lc.processTrack ts tr).track_crossed id =
      Dict.lookup lc.track_crossed id ∧
    Dict.lookup (lc.processTrack ts tr).track_lost_frames id =
      Dict.lookup lc.track_lost_frames id := by
  unfold LineCounter.processTrack
  dsimp only
  split <;>
    [skip;
     (split <;>
       [(split <;> [(split <;> [skip; skip]); skip]);
        (split <;> [(split <;> [skip; skip]); skip])])] <;>
    exact ⟨Dict.lookup_set_ne _ _ _ _ h,
      Dict.lookup_set_ne _ _ _ _ h,
      by simp [Dict.lookup_set_ne _ _ _ _ h],
      Dict.lookup_del_ne _ _ _ h⟩

theorem LineCounter.foldl_lookup_ne (ts : Rat) (tracks : List CTrack)
    (id : Int) (h : ∀ tr ∈ tracks, id ≠ tr.track_id) :
    ∀ lc : LineCounter,
      Dict.lookup
          (tracks.foldl (fun s tr => s.processTrack ts tr) lc).track_positions
          id =
        Dict.lookup lc.track_positions id ∧
      Dict.lookup
          (tracks.foldl (fun s tr => s.processTrack ts tr) lc).track_sides id =
        Dict.lookup lc.track_sides id ∧
      Dict.lookup
          (tracks.foldl (fun s tr => s.processTrack ts tr) lc).track_crossed
          id =
        Dict.lookup lc.track_crossed id ∧
      Dict.lookup
          (tracks.foldl
            (fun s tr => s.processTrack ts tr) lc).track_lost_frames id =
        Dict.lookup lc.track_lost_frames id := by
  induction tracks with
  | nil => intro lc; exact ⟨rfl, rfl, rfl, rfl⟩
  | cons hd tl ih =>
      intro lc
      have h1 := lc.processTrack_lookup_ne ts hd id
        (h hd (List.mem_cons_self hd tl))
      have h2 := ih (fun tr htr => h tr (List.mem_cons_of_mem hd htr))
        (lc.processTrack ts hd)
      simp only [List.foldl_cons]
      exact ⟨h2.1.trans h1.1, h2.2.1.trans h1.2.1,
        h2.2.2.1.trans h1.2.2.1, h2.2.2.2.trans h1.2.2.2⟩

theorem LineCounter.foldl_config (ts : Rat) (tracks : List CTrack) :
    ∀ lc : LineCounter,
      (tracks.foldl
        (fun s tr => s.processTrack ts tr) lc).min_crossing_distance =
        lc.min_crossing_distance ∧
      (tracks.foldl
        (fun s tr => s.processTrack ts tr) lc).lost_frame_threshold =
        lc.lost_frame_threshold ∧
      (tracks.foldl
        (fun s tr => s.processTrack ts tr) lc).crossing_reset_distance =
        lc.crossing_reset_distance ∧
      (tracks.foldl (fun s tr => s.processTrack ts tr) lc).line_start =
        lc.line_start ∧
      (tracks.foldl (fun s tr => s.processTrack ts tr) lc).line_end =
        lc.line_end := by
  induction tracks with
  | nil => intro lc; exact ⟨rfl, rfl, rfl, rfl, rfl⟩
  | cons hd tl ih =>
      intro lc
      have h1 := lc.processTrack_config ts hd
      have h2 := ih (lc.processTrack ts hd)
      simp only [List.foldl_cons]
      exact ⟨h2.1.trans h1.1, h2.2.1.trans h1.2.1, h2.2.2.1.trans h1.2.2.1,
        h2.2.2.2.1.trans h1.2.2.2.1, h2.2.2.2.2.trans h1.2.2.2.2⟩

theorem LineCounter.step3_lookup (entries : List (Int × (Int × Int)))
    (cur : List Int) (id : Int) :
    ∀ m : Dict Nat,
      Dict.lookup
        (entries.foldl
          (fun (m : Dict Nat) (p : Int × (Int × Int)) =>
            if p.1 ∉ cur ∧ (Dict.lookup m p.1) = none then m.set p.1 0 else m)
          m) id =
      if (∃ q ∈ entries, q.1 = id) ∧ id ∉ cur ∧ Dict.lookup m id = none then
        some 0
      else Dict.lookup m id := by
  induction entries with
  | nil => intro m; simp
  | cons hd tl ih =>
      intro m
      simp only [List.foldl_cons]
      by_cases hid : hd.1 = id
      · subst hid
        by_cases hcond : hd.1 ∉ cur ∧ (Dict.lookup m hd.1) = none
        · rw [if_pos hcond, ih (m.set hd.1 0)]
          rw [if_neg (by simp [Dict.lookup_set_self])]
          rw [Dict.lookup_set_self]
          rw [if_pos ⟨⟨hd, List.mem_cons_self hd tl, rfl⟩, hcond.1, hcond.2⟩]
        · rw [if_neg hcond, ih m]
          have hno : ¬(hd.1 ∉ cur ∧ Dict.lookup m hd.1 = none) := hcond
          rw [if_neg (fun hc => hno ⟨hc.2.1, hc.2.2⟩),
            if_neg (fun hc => hno ⟨hc.2.1, hc.2.2⟩)]
      · have hstep :
            (if hd.1 ∉ cur ∧ (Dict.lookup m hd.1) = none
              then m.set hd.1 0 else m).lookup id = Dict.lookup m id := by
          by_cases hcond : hd.1 ∉ cur ∧ (Dict.lookup m hd.1) = none
          · rw [if_pos hcond, Dict.lookup_set_ne _ _ _ _ (Ne.symm hid)]
          · rw [if_neg hcond]
        by_cases hcond : hd.1 ∉ cur ∧ (Dict.lookup m hd.1) = none
        · rw [if_pos hcond, ih (m.set hd.1 0)]
          simp only [Dict.lookup_set_ne _ _ _ _ (Ne.symm hid)]
          refine if_congr ?_ rfl rfl
          constructor
          · rintro ⟨⟨q, hq, hq1⟩, h2, h3⟩
            exact ⟨⟨q, List.mem_cons_of_mem hd hq, hq1⟩, h2, h3⟩
          · rintro ⟨⟨q, hq, hq1⟩, h2, h3⟩
            rcases List.mem_cons.mp hq with rfl | hq
            · exact absurd hq1 hid
            · exact ⟨⟨q, hq, hq1⟩, h2, h3⟩
        · rw [if_neg hcond, ih m]
          refine if_congr ?_ rfl rfl
          constructor
          · rintro ⟨⟨q, hq, hq1⟩, h2, h3⟩
            exact ⟨⟨q, List.mem_cons_of_mem hd hq, hq1⟩, h2, h3⟩
          · rintro ⟨⟨q, hq, hq1⟩, h2, h3⟩
            rcases List.mem_cons.mp hq with rfl | hq
            · exact absurd hq1 hid
            · exact ⟨⟨q, hq, hq1⟩, h2, h3⟩

/-- Pointwise effect of one `update` call at a track id absent from the
frame's input: positions, sides and crossed flags are untouched unless the id
became stale, in which case all four records are purged; the lost counter
becomes `absentLost`. -/
theorem LineCounter.update_lookup_absent (lc : LineCounter)
    (tracks : List CTrack) (ts : Rat) (id : Int)
    (h : id ∉ tracks.map CTrack.track_id) :
    Dict.lookup (lc.update tracks ts).track_positions id =
      (if lc.absentStale id then none
        else Dict.lookup lc.track_positions id) ∧
    Dict.lookup (lc.update tracks ts).track_sides id =
      (if lc.absentStale id then none
        else Dict.lookup lc.track_sides id) ∧
    Dict.lookup (lc.update tracks ts).track_crossed id =
      (if lc.absentStale id then none
        else Dict.lookup lc.track_crossed id) ∧
    Dict.lookup (lc.update tracks ts).track_lost_frames id =
      (if lc.absentStale id then none else lc.absentLost id) := by
  have hne : ∀ tr ∈ tracks, id ≠ tr.track_id := by
    intro tr htr heq
    exact h (heq ▸ List.mem_map_of_mem CTrack.track_id htr)
  have hfold := LineCounter.foldl_lookup_ne ts tracks id hne
    lc.withIncrementedLost
  have hcfg := LineCounter.foldl_config ts tracks lc.withIncrementedLost
  set F := List.foldl (fun s tr => s.processTrack ts tr)
    lc.withIncrementedLost tracks with hF
  -- Lookups through the fold reduce to the original dicts.
  have hpos : Dict.lookup F.track_positions id =
      Dict.lookup lc.track_positions id := hfold.1
  have hsid : Dict.lookup F.track_sides id =
      Dict.lookup lc.track_sides id := hfold.2.1
  have hcro : Dict.lookup F.track_crossed id =
      Dict.lookup lc.track_crossed id := hfold.2.2.1
  have hlost : Dict.lookup F.track_lost_frames id =
      (Dict.lookup lc.track_lost_frames id).map (· + 1) := by
    rw [hfold.2.2.2]
    exact Dict.lookup_map_val lc.track_lost_frames (· + 1) id
  have hthr : F.lost_frame_threshold = lc.lost_frame_threshold := hcfg.2.1
  -- Value of the step-3 lost map at id.
  have hS3 := LineCounter.step3_lookup F.track_positions
    (tracks.map CTrack.track_id) id F.track_lost_frames
  have hS3v :
      Dict.lookup
        (F.track_positions.foldl
          (fun (m : Dict Nat) (p : Int × (Int × Int)) =>
            if p.1 ∉ tracks.map CTrack.track_id ∧ (Dict.lookup m p.1) = none
            then m.set p.1 0 else m)
          F.track_lost_frames) id = lc.absentLost id := by
    rw [hS3]
    unfold LineCounter.absentLost
    dsimp only
    by_cases hex : (Dict.lookup lc.track_positions id).isSome = true ∧
        (Dict.lookup lc.track_lost_frames id).map (· + 1) = none
    · rw [if_pos hex, if_pos ?_]
      refine ⟨?_, h, by rw [hlost]; exact hex.2⟩
      rw [← hpos] at hex
      exact (Dict.lookup_isSome_iff F.track_positions id).mp hex.1
    · rw [if_neg hex, if_neg ?_, hlost]
      intro hc
      refine hex ⟨?_, by rw [← hlost]; exact hc.2.2⟩
      rw [← hpos]
      exact (Dict.lookup_isSome_iff F.track_positions id).mpr hc.1
  -- Now unfold the update and discharge the four components.
  unfold LineCounter.update
  dsimp only
  rw [← hF]
  set S3 : Dict Nat := List.foldl
    (fun (m : Dict Nat) (p : Int × (Int × Int)) =>
      if p.1 ∉ tracks.map CTrack.track_id ∧ (Dict.lookup m p.1) = none
      then m.set p.1 0 else m)
    F.track_lost_frames F.track_positions with hS3d
  have hstale :
      (!(match Dict.lookup S3 id with
        | some n => decide (F.lost_frame_threshold ≤ n)
        | none => false)) = !(lc.absentStale id) := by
    rw [hS3v, hthr]
    unfold LineCounter.absentStale
    rfl
  refine ⟨?_, ?_, ?_, ?_⟩
  · rw [Dict.lookup_filter_key F.track_positions
      (fun i => !(match Dict.lookup S3 i with
        | some n => decide (F.lost_frame_threshold ≤ n)
        | none => false)) id, hstale, hpos]
    cases hst : lc.absentStale id <;> simp
  · rw [Dict.lookup_filter_key F.track_sides
      (fun i => !(match Dict.lookup S3 i with
        | some n => decide (F.lost_frame_threshold ≤ n)
        | none => false)) id, hstale, hsid]
    cases hst : lc.absentStale id <;> simp
  · rw [Dict.lookup_filter_key F.track_crossed
      (fun i => !(match Dict.lookup S3 i with
        | some n => decide (F.lost_frame_threshold ≤ n)
        | none => false)) id, hstale, hcro]
    cases hst : lc.absentStale id <;> simp
  · rw [Dict.lookup_filter_key S3
      (fun i => !(match Dict.lookup S3 i with
        | some n => decide (F.lost_frame_threshold ≤ n)
        | none => false)) id, hstale, hS3v]
    cases hst : lc.absentStale id <;> simp

theorem LineCounter.update_config (lc : LineCounter) (tracks : List CTrack)
    (ts : Rat) :
    (lc.update tracks ts).lost_frame_threshold = lc.lost_frame_threshold := by
  unfold LineCounter.update
  dsimp only
  exact (LineCounter.foldl_config ts tracks lc.withIncrementedLost).2.1

/-- While an id stays absent and its counter stays below the threshold, each
call just increments the counter and leaves the rest of the record alone. -/
theorem LineCounter.absent_chain (inputs : List (List CTrack × Rat)) :
    ∀ (lc : LineCounter) (id : Int) (p : Int × Int) (c : Nat),
      (∀ inp ∈ inputs, id ∉ inp.1.map CTrack.track_id) →
      Dict.lookup lc.track_positions id = some p →
      Dict.lookup lc.track_lost_frames id = some c →
      c + inputs.length < lc.lost_frame_threshold →
      Dict.lookup (lc.run inputs).track_positions id = some p ∧
      Dict.lookup (lc.run inputs).track_lost_frames id =
        some (c + inputs.length) ∧
      (lc.run inputs).lost_frame_threshold = lc.lost_frame_threshold := by
  induction inputs with
  | nil =>
      intro lc id p c _ hp hl _
      exact ⟨hp, by simpa using hl, rfl⟩
  | cons hd tl ih =>
      intro lc id p c habs hp hl hlt
      have halost : lc.absentLost id = some (c + 1) := by
        unfold LineCounter.absentLost
        rw [hl]
        simp
      have hstale : lc.absentStale id = false := by
        unfold LineCounter.absentStale
        rw [halost]
        simp only [List.length_cons] at hlt
        simp
        omega
      have hup := lc.update_lookup_absent hd.1 hd.2 id
        (habs hd (List.mem_cons_self hd tl))
      rw [hstale] at hup
      simp only [Bool.false_eq_true, if_false] at hup
      have hthr' := lc.update_config hd.1 hd.2
      have habs' : ∀ inp ∈ tl, id ∉ inp.1.map CTrack.track_id :=
        fun inp hin => habs inp (List.mem_cons_of_mem hd hin)
      have hrec := ih (lc.update hd.1 hd.2) id p (c + 1) habs'
        (by rw [hup.1]; exact hp)
        (by rw [hup.2.2.2, halost])
        (by rw [hthr']; simp only [List.length_cons] at hlt; omega)
      unfold LineCounter.run at hrec ⊢
      simp only [List.foldl_cons]
      refine ⟨hrec.1, ?_, hrec.2.2.trans hthr'⟩
      rw [hrec.2.1]
      simp only [List.length_cons]
      congr 1
      omega

/-- Once the counter is bound to reach the threshold at the last of the
remaining absent calls, that call purges the whole shadow record. -/
theorem LineCounter.purge_chain (inputs : List (List CTrack × Rat)) :
    ∀ (lc : LineCounter) (id : Int) (p : Int × Int) (c : Nat),
      (∀ inp ∈ inputs, id ∉ inp.1.map CTrack.track_id) →
      Dict.lookup lc.track_positions id = some p →
      Dict.lookup lc.track_lost_frames id = some c →
      c + inputs.length = lc.lost_frame_threshold →
      1 ≤ inputs.length →
      Dict.lookup (lc.run inputs).track_positions id = none ∧
      Dict.lookup (lc.run inputs).track_sides id = none ∧
      Dict.lookup (lc.run inputs).track_crossed id = none ∧
      Dict.lookup (lc.run inputs).track_lost_frames id = none := by
  induction inputs with
  | nil =>
      intro lc id p c _ _ _ _ hlen
      simp at hlen
  | cons hd tl ih =>
      intro lc id p c habs hp hl heq _
      have halost : lc.absentLost id = some (c + 1) := by
        unfold LineCounter.absentLost
        rw [hl]
        simp
      have hup := lc.update_lookup_absent hd.1 hd.2 id
        (habs hd (List.mem_cons_self hd tl))
      have habs' : ∀ inp ∈ tl, id ∉ inp.1.map CTrack.track_id :=
        fun inp hin => habs inp (List.mem_cons_of_mem hd hin)
      have hthr' := lc.update_config hd.1 hd.2
      by_cases hzero : tl.length = 0
      · -- The current call is the purging one.
        have htl : tl = [] := List.length_eq_zero.mp hzero
        subst htl
        have hthis : lc.lost_frame_threshold = c + 1 := by
          simp only [List.length_cons] at heq
          omega
        have hstale : lc.absentStale id = true := by
          unfold LineCounter.absentStale
          rw [halost]
          simp [hthis]
        rw [hstale] at hup
        simp only [if_true] at hup
        unfold LineCounter.run
        simp only [List.foldl_cons, List.foldl_nil]
        exact ⟨hup.1, hup.2.1, hup.2.2.1, hup.2.2.2⟩
      · -- Not yet: the counter only increments.
        have hstale : lc.absentStale id = false := by
          unfold LineCounter.absentStale
          rw [halost]
          simp only [List.length_cons] at heq
          simp
          omega
        rw [hstale] at hup
        simp only [Bool.false_eq_true, if_false] at hup
        have hrec := ih (lc.update hd.1 hd.2) id p (c + 1) habs'
          (by rw [hup.1]; exact hp)
          (by rw [hup.2.2.2, halost])
          (by rw [hthr']; simp only [List.length_cons] at heq; omega)
          (by omega)
        unfold LineCounter.run at hrec ⊢
        simp only [List.foldl_cons]
        exact hrec

/-- C3 (amended): under the default semantics of counter.py, a known track id
absent for up to `lost_frame_threshold` consecutive calls is retained
(its lost-frame counter being one less than the number of absent calls), and
the shadow record is purged by the end of the
`lost_frame_threshold + 1`-st consecutive absent call. -/
theorem c3_shadow_purge_amended (lc : LineCounter) (id : Int) (p : Int × Int)
    (inputs : List (List CTrack × Rat))
    (hpos : Dict.lookup lc.track_positions id = some p)
    (hlost : Dict.lookup lc.track_lost_frames id = none)
    (habs : ∀ inp ∈ inputs, id ∉ inp.1.map CTrack.track_id) :
    (inputs.length ≤ lc.lost_frame_threshold →
      Dict.lookup (lc.run inputs).track_positions id = some p) ∧
    (inputs.length = lc.lost_frame_threshold + 1 →
      Dict.lookup (lc.run inputs).track_positions id = none ∧
      Dict.lookup (lc.run inputs).track_sides id = none ∧
      Dict.lookup (lc.run inputs).track_crossed id = none ∧
      Dict.lookup (lc.run inputs).track_lost_frames id = none) := by
  cases inputs with
  | nil =>
      refine ⟨fun _ => hpos, fun h0 => absurd h0 (by simp)⟩
  | cons hd tl =>
      have halost : lc.absentLost id = some 0 := by
        unfold LineCounter.absentLost
        rw [hlost, hpos]
        simp
      have hup := lc.update_lookup_absent hd.1 hd.2 id
        (habs hd (List.mem_cons_self hd tl))
      have hthr' := lc.update_config hd.1 hd.2
      have habs' : ∀ inp ∈ tl, id ∉ inp.1.map CTrack.track_id :=
        fun inp hin => habs inp (List.mem_cons_of_mem hd hin)
      constructor
      · intro hle
        simp only [List.length_cons] at hle
        have hstale : lc.absentStale id = false := by
          unfold LineCounter.absentStale
          rw [halost]
          simp
          omega
        rw [hstale] at hup
        simp only [Bool.false_eq_true, if_false] at hup
        have hrec := LineCounter.absent_chain tl (lc.update hd.1 hd.2) id p 0
          habs' (by rw [hup.1]; exact hpos) (by rw [hup.2.2.2, halost])
          (by rw [hthr']; omega)
        unfold LineCounter.run at hrec ⊢
        simp only [List.foldl_cons]
        exact hrec.1
      · intro heq
        simp only [List.length_cons] at heq
        by_cases hthr0 : lc.lost_frame_threshold = 0
        · have htl : tl = [] := List.length_eq_zero.mp (by omega)
          subst htl
          have hstale : lc.absentStale id = true := by
            unfold LineCounter.absentStale
            rw [halost]
            simp [hthr0]
          rw [hstale] at hup
          simp only [if_true] at hup
          unfold LineCounter.run
          simp only [List.foldl_cons, List.foldl_nil]
          exact ⟨hup.1, hup.2.1, hup.2.2.1, hup.2.2.2⟩
        · have hstale : lc.absentStale id = false := by
            unfold LineCounter.absentStale
            rw [halost]
            simp
            omega
          rw [hstale] at hup
          simp only [Bool.false_eq_true, if_false] at hup
          have hrec := LineCounter.purge_chain tl (lc.update hd.1 hd.2) id p 0
            habs' (by rw [hup.1]; exact hpos) (by rw [hup.2.2.2, halost])
            (by rw [hthr']; omega) (by omega)
          unfold LineCounter.run at hrec ⊢
          simp only [List.foldl_cons]
          exact hrec

/-- Witness for the amended C3 theorem at a concrete run: id 5 is seen once
and then absent for 31 = 30 + 1 calls, after which its record is gone. -/
theorem c3_shadow_purge_witness :
    Dict.lookup
      ((((LineCounter.init (50, 0) (50, 100)).update
          [CTrack.mk 10 10 20 20 5 1] 0).run
        (List.replicate 31 ([], 1))).track_positions) 5 = none := by
  have h := c3_shadow_purge_amended
    ((LineCounter.init (50, 0) (50, 100)).update [CTrack.mk 10 10 20 20 5 1] 0)
    5 (15, 15) (List.replicate 31 ([], 1))
    (by decide) (by decide) (by decide)
  exact (h.2 (by decide)).1

/-- C3 counterexample to the claim as stated: with the default threshold 30,
after exactly 30 consecutive absent calls the shadow record is still present
(the claim asserts it is purged by the end of the 30th such call). -/
theorem c3_shadow_purge_counterexample :
    ((((LineCounter.init (50, 0) (50, 100)).update
        [CTrack.mk 10 10 20 20 5 1] 0).run
      (List.replicate 30 ([], 1))).lost_frame_threshold = 30) ∧
    Dict.lookup
      ((((LineCounter.init (50, 0) (50, 100)).update
          [CTrack.mk 10 10 20 20 5 1] 0).run
        (List.replicate 30 ([], 1))).track_positions) 5 = some (15, 15) ∧
    Dict.lookup
      ((((LineCounter.init (50, 0) (50, 100)).update
          [CTrack.mk 10 10 20 20 5 1] 0).run
        (List.replicate 30 ([], 1))).track_lost_frames) 5 = some 29 := by
  decide

/-- C9: `total_enter` and `total_exit` are non-decreasing: each `update` call
returns values at least as large as the previous ones, both from an arbitrary
state and along any run from a fresh counter. -/
theorem c9_totals_nondecreasing :
    (∀ (lc : LineCounter) (tracks : List CTrack) (ts : Rat),
      lc.total_enter ≤ (lc.update tracks ts).total_enter ∧
      lc.total_exit ≤ (lc.update tracks ts).total_exit) ∧
    (∀ (ls le : Int × Int) (inputs more : List (List CTrack × Rat)),
      ((LineCounter.init ls le).run inputs).total_enter ≤
        ((LineCounter.init ls le).run (inputs ++ more)).total_enter ∧
      ((LineCounter.init ls le).run inputs).total_exit ≤
        ((LineCounter.init ls le).run (inputs ++ more)).total_exit) := by
  constructor
  · intro lc tracks ts
    have h := lc.update_counters tracks ts
    exact ⟨h.1, h.2.1⟩
  · intro ls le inputs more
    rw [LineCounter.run_append]
    have h := LineCounter.run_totals_mono more ((LineCounter.init ls le).run inputs)
    exact ⟨h.1, h.2.1⟩

/-- C10: the slack `current_occupancy - (total_enter - total_exit)` starts at
0 on a fresh counter, never decreases across `update` calls, and at the level
of a single processed track either stays equal or grows by exactly 1, the
latter only when an exit is counted at occupancy 0; consequently
`current_occupancy ≥ total_enter - total_exit` on every reachable state. -/
theorem c10_occupancy_slack :
    (∀ ls le : Int × Int, (LineCounter.init ls le).occDiff = 0) ∧
    (∀ (lc : LineCounter) (tracks : List CTrack) (ts : Rat),
      lc.occDiff ≤ (lc.update tracks ts).occDiff) ∧
    (∀ (lc : LineCounter) (ts : Rat) (tr : CTrack),
      (lc.processTrack ts tr).occDiff = lc.occDiff ∨
        ((lc.processTrack ts tr).occDiff = lc.occDiff + 1 ∧
          lc.current_occupancy = 0)) ∧
    (∀ (ls le : Int × Int) (inputs : List (List CTrack × Rat)),
      (((LineCounter.init ls le).run inputs).total_enter : Int) -
          (((LineCounter.init ls le).run inputs).total_exit : Int) ≤
        (((LineCounter.init ls le).run inputs).current_occupancy : Int)) := by
  refine ⟨fun _ _ => rfl, ?_, ?_, ?_⟩
  · intro lc tracks ts
    exact (lc.update_counters tracks ts).2.2
  · intro lc ts tr
    exact lc.processTrack_occDiff ts tr
  · intro ls le inputs
    have h := (LineCounter.run_totals_mono inputs (LineCounter.init ls le)).2.2
    have h0 : (LineCounter.init ls le).occDiff = 0 := rfl
    rw [h0] at h
    unfold LineCounter.occDiff at h
    omega

/-- C1 (amended): on every state reachable from a fresh counter,
`current_occupancy` is at least `max 0 (total_enter - total_exit)`; the
original equality fails once an exit has been floored at occupancy 0. -/
theorem c1_occupancy_floor_amended (ls le : Int × Int)
    (inputs : List (List CTrack × Rat)) :
    max 0 ((((LineCounter.init ls le).run inputs).total_enter : Int) -
        (((LineCounter.init ls le).run inputs).total_exit : Int)) ≤
      (((LineCounter.init ls le).run inputs).current_occupancy : Int) := by
  have h := (LineCounter.run_totals_mono inputs (LineCounter.init ls le)).2.2
  have h0 : (LineCounter.init ls le).occDiff = 0 := rfl
  rw [h0] at h
  unfold LineCounter.occDiff at h
  omega

/-- C1 counterexample: in the spec's own worked scenario the final state has
`total_enter = total_exit = 1` but `current_occupancy = 1`, so the claimed
equality `current_occupancy = max 0 (total_enter - total_exit)` is false. -/
theorem c1_occupancy_floor_counterexample :
    (((scenarioCounter.run scenarioInputs).current_occupancy : Int) ≠
      max 0 (((scenarioCounter.run scenarioInputs).total_enter : Int) -
        ((scenarioCounter.run scenarioInputs).total_exit : Int))) := by
  decide

/-- C5: the spec's worked scenario, frame by frame: first sighting at x=40 on
the enter side with no event; crossing to x=60 counts an exit (total_exit=1,
occupancy floored at 0) and sets the counted flag; x=65 keeps the flag (line
distance 15 < 20); x=90 clears it (line distance 40 > 20, moved 25 >= 2);
x=30 counts an enter (total_enter=1, occupancy 1). -/
theorem c5_scenario :
    (scenarioState 1).total_enter = 0 ∧
    (scenarioState 1).total_exit = 0 ∧
    (scenarioState 1).current_occupancy = 0 ∧
    (scenarioState 1).counting_history = [] ∧
    Dict.lookup (scenarioState 1).track_sides 7 = some Side.enter ∧
    Dict.lookup (scenarioState 1).track_crossed 7 = some false ∧
    (scenarioState 2).total_enter = 0 ∧
    (scenarioState 2).total_exit = 1 ∧
    (scenarioState 2).current_occupancy = 0 ∧
    (scenarioState 2).counting_history = [CountEvent.mk 1 7 Side.exit 0 1] ∧
    Dict.lookup (scenarioState 2).track_sides 7 = some Side.exit ∧
    Dict.lookup (scenarioState 2).track_crossed 7 = some true ∧
    (scenarioState 3).total_enter = 0 ∧
    (scenarioState 3).total_exit = 1 ∧
    (scenarioState 3).current_occupancy = 0 ∧
    (scenarioState 3).counting_history = [CountEvent.mk 1 7 Side.exit 0 1] ∧
    Dict.lookup (scenarioState 3).track_crossed 7 = some true ∧
    (scenarioState 4).total_enter = 0 ∧
    (scenarioState 4).total_exit = 1 ∧
    (scenarioState 4).current_occupancy = 0 ∧
    (scenarioState 4).counting_history = [CountEvent.mk 1 7 Side.exit 0 1] ∧
    Dict.lookup (scenarioState 4).track_crossed 7 = some false ∧
    (scenarioState 5).total_enter = 1 ∧
    (scenarioState 5).total_exit = 1 ∧
    (scenarioState 5).current_occupancy = 1 ∧
    (scenarioState 5).counting_history =
      [CountEvent.mk 1 7 Side.exit 0 1, CountEvent.mk 4 7 Side.enter 1 1] := by
  decide

end PeopleCounter

namespace PeopleCounter

theorem iou_self_pos (b : Int × Int × Int × Int) (hx : b.1 < b.2.2.1)
    (hy : b.2.1 < b.2.2.2) : iou b b = 1 := by
  simp only [iou, max_self, min_self]
  rw [if_neg (by omega)]
  have harea : (0 : Int) < (b.2.2.1 - b.1) * (b.2.2.2 - b.2.1) :=
    mul_pos (by omega) (by omega)
  rw [if_pos (by omega)]
  have hne : (((b.2.2.1 - b.1) * (b.2.2.2 - b.2.1) : Int) : Rat) ≠ 0 := by
    exact_mod_cast harea.ne.symm
  rw [show (b.2.2.1 - b.1) * (b.2.2.2 - b.2.1) +
      (b.2.2.1 - b.1) * (b.2.2.2 - b.2.1) -
      (b.2.2.1 - b.1) * (b.2.2.2 - b.2.1) =
      (b.2.2.1 - b.1) * (b.2.2.2 - b.2.1) from by ring]
  rw [Rat.mkRat_eq_divInt, Rat.divInt_eq_div,
    Int.toNat_of_nonneg (le_of_lt harea)]
  exact div_self hne

theorem iou_comm (a b : Int × Int × Int × Int) : iou a b = iou b a := by
  simp only [iou]
  rw [max_comm a.1 b.1, max_comm a.2.1 b.2.1,
    min_comm a.2.2.1 b.2.2.1, min_comm a.2.2.2 b.2.2.2,
    add_comm ((a.2.2.1 - a.1) * (a.2.2.2 - a.2.1))
      ((b.2.2.1 - b.1) * (b.2.2.2 - b.2.1))]

theorem iou_no_overlap (a b : Int × Int × Int × Int)
    (h : min a.2.2.1 b.2.2.1 ≤ max a.1 b.1 ∨
      min a.2.2.2 b.2.2.2 ≤ max a.2.1 b.2.1) : iou a b = 0 := by
  simp only [iou]
  by_cases hg : min a.2.2.1 b.2.2.1 < max a.1 b.1 ∨
      min a.2.2.2 b.2.2.2 < max a.2.1 b.2.1
  · rw [if_pos hg]
  · rw [if_neg hg]
    have hinter : (min a.2.2.1 b.2.2.1 - max a.1 b.1) *
        (min a.2.2.2 b.2.2.2 - max a.2.1 b.2.1) = 0 := by
      rcases h with h | h
      · have : min a.2.2.1 b.2.2.1 - max a.1 b.1 = 0 := by omega
        rw [this, zero_mul]
      · have : min a.2.2.2 b.2.2.2 - max a.2.1 b.2.1 = 0 := by omega
        rw [this, mul_zero]
    rw [hinter]
    split
    · rw [Rat.zero_mkRat]
    · rfl

theorem iou_zero_union (a b : Int × Int × Int × Int)
    (ha : (a.2.2.1 - a.1) * (a.2.2.2 - a.2.1) = 0)
    (hb : (b.2.2.1 - b.1) * (b.2.2.2 - b.2.1) = 0) : iou a b = 0 := by
  simp only [iou]
  by_cases hg : min a.2.2.1 b.2.2.1 < max a.1 b.1 ∨
      min a.2.2.2 b.2.2.2 < max a.2.1 b.2.1
  · rw [if_pos hg]
  · rw [if_neg hg]
    push_neg at hg
    have hinter : 0 ≤ (min a.2.2.1 b.2.2.1 - max a.1 b.1) *
        (min a.2.2.2 b.2.2.2 - max a.2.1 b.2.1) :=
      mul_nonneg (by omega) (by omega)
    rw [ha, hb, if_neg (by omega)]

theorem mem_insortDesc (x : Cand) (l : List Cand) (a : Cand) :
    a ∈ insortDesc x l ↔ a = x ∨ a ∈ l := by
  induction l with
  | nil => simp [insortDesc]
  | cons y ys ih =>
      unfold insortDesc
      by_cases hc : y.2.2 < x.2.2
      · simp [hc]
      · simp only [if_neg hc, List.mem_cons, ih]
        tauto

theorem mem_insortSpec (x : Cand) (l : List Cand) (a : Cand) :
    a ∈ insortSpec x l ↔ a = x ∨ a ∈ l := by
  induction l with
  | nil => simp [insortSpec]
  | cons y ys ih =>
      unfold insortSpec
      by_cases hc : y.2.2 < x.2.2 ∨
          (x.2.2 = y.2.2 ∧ (x.1 < y.1 ∨ (x.1 = y.1 ∧ x.2.1 < y.2.1)))
      · simp [hc]
      · simp only [if_neg hc, List.mem_cons, ih]
        tauto

theorem insort_congr (x : Cand) (l : List Cand)
    (h : ∀ y ∈ l, candLexLt y x) : insortDesc x l = insortSpec x l := by
  induction l with
  | nil => rfl
  | cons y ys ih =>
      have hy := h y (List.mem_cons_self y ys)
      unfold candLexLt at hy
      have hiff : (y.2.2 < x.2.2 ∨
          (x.2.2 = y.2.2 ∧ (x.1 < y.1 ∨ (x.1 = y.1 ∧ x.2.1 < y.2.1)))) ↔
          y.2.2 < x.2.2 := by
        constructor
        · rintro (hc | ⟨_, hc⟩)
          · exact hc
          · exact absurd hc (by omega)
        · exact Or.inl
      unfold insortDesc insortSpec
      by_cases hc : y.2.2 < x.2.2
      · rw [if_pos hc, if_pos (hiff.mpr hc)]
      · rw [if_neg hc, if_neg (fun hx => hc (hiff.mp hx))]
        rw [ih (fun z hz => h z (List.mem_cons_of_mem y hz))]

theorem sort_fold_congr (l : List Cand) :
    ∀ acc : List Cand,
      (∀ y ∈ acc, ∀ x ∈ l, candLexLt y x) →
      l.Pairwise candLexLt →
      l.foldl (fun acc x => insortDesc x acc) acc =
        l.foldl (fun acc x => insortSpec x acc) acc := by
  induction l with
  | nil => intro acc _ _; rfl
  | cons x xs ih =>
      intro acc hacc hpw
      simp only [List.foldl_cons]
      rw [← insort_congr x acc
        (fun y hy => hacc y hy x (List.mem_cons_self x xs))]
      apply ih
      · intro y hy z hz
        rcases (mem_insortDesc x acc y).mp hy with rfl | hy
        · exact (List.pairwise_cons.mp hpw).1 z hz
        · exact hacc y hy z (List.mem_cons_of_mem x hz)
      · exact (List.pairwise_cons.mp hpw).2

theorem sortDesc_eq_sortSpec (l : List Cand) (h : l.Pairwise candLexLt) :
    sortDesc l = sortSpec l := by
  unfold sortDesc sortSpec
  exact sort_fold_congr l [] (by simp) h

theorem mem_sortDesc (l : List Cand) (a : Cand) :
    a ∈ sortDesc l ↔ a ∈ l := by
  unfold sortDesc
  suffices h : ∀ acc, a ∈ l.foldl (fun acc x => insortDesc x acc) acc ↔
      a ∈ acc ∨ a ∈ l by
    simpa using h []
  induction l with
  | nil => intro acc; simp
  | cons x xs ih =>
      intro acc
      simp only [List.foldl_cons, ih, mem_insortDesc, List.mem_cons]
      tauto

theorem candidates_mem {T D : Nat} {f : Nat → Nat → Rat} {thr : Rat}
    {c : Cand} (h : c ∈ candidates T D f thr) :
    c.1 < T ∧ c.2.1 < D ∧ thr ≤ c.2.2 ∧ c.2.2 = f c.1 c.2.1 := by
  unfold candidates at h
  rw [List.mem_flatMap] at h
  rcases h with ⟨t, ht, hc⟩
  rw [List.mem_filterMap] at hc
  rcases hc with ⟨d, hd, he⟩
  rw [List.mem_range] at ht hd
  by_cases hth : thr ≤ f t d
  · rw [if_pos hth] at he
    cases he
    exact ⟨ht, hd, hth, rfl⟩
  · rw [if_neg hth] at he
    cases he

theorem candidates_pairwise (T D : Nat) (f : Nat → Nat → Rat) (thr : Rat) :
    (candidates T D f thr).Pairwise candLexLt := by
  unfold candidates
  rw [List.pairwise_flatMap]
  constructor
  · intro t _
    rw [List.pairwise_filterMap]
    apply List.Pairwise.imp ?_ (List.pairwise_lt_range D)
    intro d1 d2 hlt b1 hb1 b2 hb2
    have e1 : b1 = (t, d1, f t d1) := by
      by_cases h : thr ≤ f t d1
      · exact ((by simpa [h] using hb1 : (t, d1, f t d1) = b1)).symm
      · simp [h] at hb1
    have e2 : b2 = (t, d2, f t d2) := by
      by_cases h : thr ≤ f t d2
      · exact ((by simpa [h] using hb2 : (t, d2, f t d2) = b2)).symm
      · simp [h] at hb2
    subst e1; subst e2
    exact Or.inr ⟨rfl, hlt⟩
  · apply List.Pairwise.imp ?_ (List.pairwise_lt_range T)
    intro t1 t2 hlt b1 hb1 b2 hb2
    rw [List.mem_filterMap] at hb1 hb2
    rcases hb1 with ⟨d1, _, he1⟩
    rcases hb2 with ⟨d2, _, he2⟩
    have e1 : b1 = (t1, d1, f t1 d1) := by
      by_cases h : thr ≤ f t1 d1
      · rw [if_pos h] at he1; cases he1; rfl
      · rw [if_neg h] at he1; cases he1
    have e2 : b2 = (t2, d2, f t2 d2) := by
      by_cases h : thr ≤ f t2 d2
      · rw [if_pos h] at he2; cases he2; rfl
      · rw [if_neg h] at he2; cases he2
    subst e1; subst e2
    exact Or.inl hlt

theorem greedy_fold_eq (T D : Nat) (S : List Cand) :
    ∀ acc : List (Nat × Nat),
      (∀ c ∈ S, c.1 < T ∧ c.2.1 < D) →
      S.foldl greedyStep
        (acc,
         (List.range T).filter (fun t => decide (t ∉ acc.map Prod.fst)),
         (List.range D).filter (fun d => decide (d ∉ acc.map Prod.snd))) =
      (S.foldl specGreedyStep acc,
       (List.range T).filter
         (fun t => decide (t ∉ (S.foldl specGreedyStep acc).map Prod.fst)),
       (List.range D).filter
         (fun d => decide (d ∉ (S.foldl specGreedyStep acc).map Prod.snd))) := by
  induction S with
  | nil => intro acc _; rfl
  | cons c S' ih =>
      intro acc hb
      have hcb := hb c (List.mem_cons_self c S')
      have hb' : ∀ x ∈ S', x.1 < T ∧ x.2.1 < D :=
        fun x hx => hb x (List.mem_cons_of_mem c hx)
      simp only [List.foldl_cons]
      by_cases hc : c.1 ∉ acc.map Prod.fst ∧ c.2.1 ∉ acc.map Prod.snd
      · -- Accepted by both versions.
        have hmT : c.1 ∈ (List.range T).filter
            (fun t => decide (t ∉ acc.map Prod.fst)) := by
          rw [List.mem_filter, List.mem_range]
          exact ⟨hcb.1, by simpa using hc.1⟩
        have hmD : c.2.1 ∈ (List.range D).filter
            (fun d => decide (d ∉ acc.map Prod.snd)) := by
          rw [List.mem_filter, List.mem_range]
          exact ⟨hcb.2, by simpa using hc.2⟩
        have hgs : greedyStep
            (acc,
             (List.range T).filter (fun t => decide (t ∉ acc.map Prod.fst)),
             (List.range D).filter (fun d => decide (d ∉ acc.map Prod.snd))) c =
            (acc ++ [(c.1, c.2.1)],
             ((List.range T).filter
               (fun t => decide (t ∉ acc.map Prod.fst))).erase c.1,
             ((List.range D).filter
               (fun d => decide (d ∉ acc.map Prod.snd))).erase c.2.1) := by
          unfold greedyStep
          rw [if_pos ⟨hmT, hmD⟩]
        have heT : ((List.range T).filter
            (fun t => decide (t ∉ acc.map Prod.fst))).erase c.1 =
            (List.range T).filter
              (fun t => decide (t ∉ (acc ++ [(c.1, c.2.1)]).map Prod.fst)) := by
          rw [List.Nodup.erase_eq_filter
            ((List.nodup_range T).filter _) c.1, List.filter_filter]
          apply List.filter_congr
          intro t _
          by_cases h1 : t ∈ acc.map Prod.fst <;> by_cases h2 : t = c.1 <;>
            simp [h1, h2]
        have heD : ((List.range D).filter
            (fun d => decide (d ∉ acc.map Prod.snd))).erase c.2.1 =
            (List.range D).filter
              (fun d => decide (d ∉ (acc ++ [(c.1, c.2.1)]).map Prod.snd)) := by
          rw [List.Nodup.erase_eq_filter
            ((List.nodup_range D).filter _) c.2.1, List.filter_filter]
          apply List.filter_congr
          intro d _
          by_cases h1 : d ∈ acc.map Prod.snd <;> by_cases h2 : d = c.2.1 <;>
            simp [h1, h2]
        have hss : specGreedyStep acc c = acc ++ [(c.1, c.2.1)] := by
          unfold specGreedyStep
          rw [if_pos hc]
        rw [hgs, heT, heD]
        simp only [hss]
        exact ih (acc ++ [(c.1, c.2.1)]) hb'
      · -- Rejected by both versions.
        have hgs : greedyStep
            (acc,
             (List.range T).filter (fun t => decide (t ∉ acc.map Prod.fst)),
             (List.range D).filter (fun d => decide (d ∉ acc.map Prod.snd))) c =
            (acc,
             (List.range T).filter (fun t => decide (t ∉ acc.map Prod.fst)),
             (List.range D).filter (fun d => decide (d ∉ acc.map Prod.snd))) := by
          unfold greedyStep
          rw [if_neg]
          intro hmem
          apply hc
          constructor
          · have := hmem.1
            rw [List.mem_filter] at this
            simpa using this.2
          · have := hmem.2
            rw [List.mem_filter] at this
            simpa using this.2
        have hss : specGreedyStep acc c = acc := by
          unfold specGreedyStep
          rw [if_neg hc]
        rw [hgs]
        simp only [hss]
        exact ih acc hb'

theorem specAssociate_nil_tracks (dets : List Det) (thr : Rat) :
    specAssociate dets [] thr = ([], [], List.range dets.length) := by
  unfold specAssociate
  dsimp only
  have hcand : candidates (List.length ([] : List Track)) dets.length
      (fun t d =>
        iou ((([] : List Track)).getD t defaultTrack).bbox
          (dets.getD d defaultDet).box) thr = [] := rfl
  rw [hcand]
  simp only [Prod.mk.injEq]
  refine ⟨rfl, rfl, ?_⟩
  apply List.filter_eq_self.mpr
  intro a _
  simp [specGreedy, sortSpec]

theorem specAssociate_nil_dets (tracks : List Track) (thr : Rat) :
    specAssociate [] tracks thr = ([], List.range tracks.length, []) := by
  unfold specAssociate
  dsimp only
  have hcand : candidates tracks.length (List.length ([] : List Det))
      (fun t d =>
        iou (tracks.getD t defaultTrack).bbox
          ((([] : List Det)).getD d defaultDet).box) thr = [] := by
    unfold candidates
    apply List.flatMap_eq_nil_iff.mpr
    intro t _
    rfl
  rw [hcand]
  simp only [Prod.mk.injEq]
  refine ⟨rfl, ?_, rfl⟩
  apply List.filter_eq_self.mpr
  intro a _
  simp [specGreedy, sortSpec]

theorem associate_eq_spec (dets : List Det) (tracks : List Track)
    (thr : Rat) :
    associate dets tracks thr = specAssociate dets tracks thr := by
  by_cases htr : tracks = []
  · subst htr
    rw [specAssociate_nil_tracks]
    rfl
  · by_cases hdt : dets = []
    · subst hdt
      rw [specAssociate_nil_dets]
      unfold associate
      rw [if_neg htr, if_pos rfl]
    · unfold associate specAssociate
      rw [if_neg htr, if_neg hdt]
      dsimp only
      rw [sortDesc_eq_sortSpec _ (candidates_pairwise _ _ _ _)]
      have hb : ∀ c ∈ sortSpec (candidates tracks.length dets.length
          (fun t d =>
            iou (tracks.getD t defaultTrack).bbox
              (dets.getD d defaultDet).box) thr),
          c.1 < tracks.length ∧ c.2.1 < dets.length := by
        intro c hc
        rw [← sortDesc_eq_sortSpec _ (candidates_pairwise _ _ _ _)] at hc
        have hm := (mem_sortDesc _ _).mp hc
        have hcm := candidates_mem hm
        exact ⟨hcm.1, hcm.2.1⟩
      have hmain := greedy_fold_eq tracks.length dets.length
        (sortSpec (candidates tracks.length dets.length
          (fun t d =>
            iou (tracks.getD t defaultTrack).bbox
              (dets.getD d defaultDet).box) thr)) [] hb
      have hT : (List.range tracks.length).filter
          (fun t => decide (t ∉ (([] : List (Nat × Nat)).map Prod.fst))) =
          List.range tracks.length :=
        List.filter_eq_self.mpr (by intro a _; simp)
      have hD : (List.range dets.length).filter
          (fun d => decide (d ∉ (([] : List (Nat × Nat)).map Prod.snd))) =
          List.range dets.length :=
        List.filter_eq_self.mpr (by intro a _; simp)
      rw [hT, hD] at hmain
      exact hmain

/-- C4: the associator equals the reference algorithm of the specification
(candidates at or above the threshold, sorted by IoU descending with ties in
enumeration order, greedily accepted), and the edge cases: zero tracks give
all detections unmatched, zero detections give all tracks unmatched. -/
theorem c4_associator_matches_reference :
    (∀ (dets : List Det) (tracks : List Track) (thr : Rat),
      associate dets tracks thr = specAssociate dets tracks thr) ∧
    (∀ (dets : List Det) (thr : Rat),
      associate dets [] thr = ([], [], List.range dets.length)) ∧
    (∀ (tracks : List Track) (thr : Rat),
      associate [] tracks thr = ([], List.range tracks.length, [])) := by
  refine ⟨associate_eq_spec, fun dets thr => rfl, ?_⟩
  intro tracks thr
  rw [associate_eq_spec]
  exact specAssociate_nil_dets tracks thr

/-- C7 (amended): IoU of a box with itself is 1 for boxes of positive area
(not for all well-formed boxes: a degenerate box has zero union and yields
0); IoU is symmetric; IoU is 0 whenever the intersection is empty and
whenever the union is non-positive, via the guarded division. -/
theorem c7_iou_properties :
    (∀ b : Int × Int × Int × Int,
      b.1 < b.2.2.1 → b.2.1 < b.2.2.2 → iou b b = 1) ∧
    (∀ a b : Int × Int × Int × Int, iou a b = iou b a) ∧
    (∀ a b : Int × Int × Int × Int,
      min a.2.2.1 b.2.2.1 ≤ max a.1 b.1 ∨
        min a.2.2.2 b.2.2.2 ≤ max a.2.1 b.2.1 → iou a b = 0) ∧
    (∀ a b : Int × Int × Int × Int,
      (a.2.2.1 - a.1) * (a.2.2.2 - a.2.1) = 0 →
      (b.2.2.1 - b.1) * (b.2.2.2 - b.2.1) = 0 → iou a b = 0) :=
  ⟨iou_self_pos, iou_comm, iou_no_overlap, iou_zero_union⟩

/-- Witness for the amended C7 theorem at concrete boxes. -/
theorem c7_iou_witness :
    iou (0, 0, 10, 10) (0, 0, 10, 10) = 1 ∧
    iou (0, 0, 10, 10) (20, 20, 30, 30) = iou (20, 20, 30, 30) (0, 0, 10, 10) ∧
    iou (0, 0, 10, 10) (20, 20, 30, 30) = 0 ∧
    iou (0, 0, 0, 0) (5, 5, 5, 5) = 0 :=
  ⟨c7_iou_properties.1 (0, 0, 10, 10) (by decide) (by decide),
   c7_iou_properties.2.1 (0, 0, 10, 10) (20, 20, 30, 30),
   c7_iou_properties.2.2.1 (0, 0, 10, 10) (20, 20, 30, 30) (by decide),
   c7_iou_properties.2.2.2 (0, 0, 0, 0) (5, 5, 5, 5) (by decide) (by decide)⟩

/-- C7 counterexample to the claim as stated: the degenerate box (0,0,0,0)
is well-formed in the claim's sense (x1 <= x2 and y1 <= y2), yet its IoU
with itself is 0, not 1 (the zero union is guarded to 0). -/
theorem c7_iou_counterexample :
    ((0 : Int) ≤ 0) ∧ iou (0, 0, 0, 0) (0, 0, 0, 0) = 0 ∧
      iou (0, 0, 0, 0) (0, 0, 0, 0) ≠ 1 := by
  refine ⟨le_refl 0, ?_, ?_⟩ <;> decide

set_option maxRecDepth 4000 in
/-- C2, demonstrating the divergence: one high-confidence detection creates
track 1 at frame 1; from frame 2 on there are no detections, so the track
moves to the lost list with `time_since_update = 1`.  Because the code only
increments `time_since_update` for tracked tracks (line 102 of tracker.py),
the clock of a lost track is frozen, the `<= max_age` filter of line 166
never fires, and after 32 unmatched frames (> max_age = 30) the track is
still retained as lost with its clock stuck at 1. -/
theorem c2_lost_track_never_discarded :
    ((ByteTracker.initDefault.runFrames
      ([demoDet] :: List.replicate 32 [])).frame_count = 33) ∧
    ((ByteTracker.initDefault.runFrames
      ([demoDet] :: List.replicate 32 [])).max_age = 30) ∧
    ((ByteTracker.initDefault.runFrames
      ([demoDet] :: List.replicate 32 [])).lost_tracks.map
        (fun t => (t.track_id, t.time_since_update)) = [(1, 1)]) ∧
    ((ByteTracker.initDefault.runFrames
      ([demoDet] :: List.replicate 32 [])).tracked_tracks = []) ∧
    ((ByteTracker.initDefault.runFrames
      ([demoDet] :: List.replicate 32 [])).removed_tracks = []) := by
  decide

/-- C6: every output tuple of an `update` call comes from a tracked track
with at least `min_hits` hits, so a track below `min_hits` never appears;
concretely, with the defaults a track has 2 hits after frame 2 and is absent
from the output of frames 1 and 2, and appears exactly when its third hit
lands at frame 3. -/
theorem c6_min_hits_gate :
    (∀ (bt : ByteTracker) (dets : List Det) (o : OutTrack),
      o ∈ (bt.update dets).1 →
      ∃ t ∈ (bt.update dets).2.tracked_tracks,
        bt.min_hits ≤ t.hits ∧ t.toOut = o) ∧
    ((ByteTracker.initDefault.runFrames [[demoDet], [demoDet]]).tracked_tracks.map
      (fun t => (t.track_id, t.hits)) = [(1, 2)]) ∧
    ((ByteTracker.initDefault.runOutputs [[demoDet], [demoDet], [demoDet]]).1 =
      [[], [], [OutTrack.mk 0 0 10 10 1 (mkRat 9 10)]]) := by
  refine ⟨?_, by decide, by decide⟩
  intro bt dets o ho
  unfold ByteTracker.update at ho ⊢
  dsimp only at ho ⊢
  rw [List.mem_map] at ho
  rcases ho with ⟨t, ht, rfl⟩
  rw [List.mem_filter] at ht
  exact ⟨t, ht.1, by simpa using ht.2, rfl⟩

/-- Witness for the universally quantified part of the C6 theorem at the
concrete third frame of the scenario. -/
theorem c6_min_hits_witness :
    ∃ t ∈ ((ByteTracker.initDefault.runFrames
        [[demoDet], [demoDet]]).update [demoDet]).2.tracked_tracks,
      (ByteTracker.initDefault.runFrames
        [[demoDet], [demoDet]]).min_hits ≤ t.hits ∧
        t.toOut = OutTrack.mk 0 0 10 10 1 (mkRat 9 10) :=
  c6_min_hits_gate.1 _ [demoDet] _ (by decide)

end PeopleCounter

namespace PeopleCounter

theorem set_getD_self {α : Type} : ∀ (l : List α) (i : Nat) (d : α),
    l.set i (l.getD i d) = l := by
  intro l
  induction l with
  | nil => intro i d; rfl
  | cons a tl ih =>
      intro i d
      cases i with
      | zero => rfl
      | succ j => simpa [List.set, List.getD] using ih j d

theorem enum_eq_map_range {α : Type} (l : List α) (d : α) :
    (List.range l.length).map (fun i => (i, l.getD i d)) = l.enum := by
  induction l with
  | nil => rfl
  | cons a tl ih =>
      rw [List.enum_cons']
      simp only [List.length_cons, List.range_succ_eq_map, List.map_cons]
      refine congrArg (List.cons _) ?_
      rw [List.map_map, ← ih, List.map_map]
      rfl

/-- Splitting a list into the entries at a set of indices and the rest is a
permutation of the list. -/
theorem extract_filter_perm {α : Type} (l : List α) (d : α) (idxs : List Nat)
    (hnd : idxs.Nodup) (hlt : ∀ i ∈ idxs, i < l.length) :
    List.Perm
      (((l.enum.filter (fun p => decide (p.1 ∉ idxs))).map Prod.snd) ++
        idxs.map (fun i => l.getD i d)) l := by
  have hperm1 : List.Perm idxs ((List.range l.length).filter
      (fun i => decide (i ∈ idxs))) := by
    rw [List.perm_ext_iff_of_nodup hnd ((List.nodup_range l.length).filter _)]
    intro a
    rw [List.mem_filter, List.mem_range]
    constructor
    · intro ha; exact ⟨hlt a ha, by simpa using ha⟩
    · intro ha; simpa using ha.2
  have heq2 : ((List.range l.length).filter
      (fun i => decide (i ∈ idxs))).map (fun i => l.getD i d) =
      (l.enum.filter (fun p => decide (p.1 ∈ idxs))).map Prod.snd := by
    rw [← enum_eq_map_range l d, List.filter_map, List.map_map]
    rfl
  have hperm3 : List.Perm (idxs.map (fun i => l.getD i d))
      ((l.enum.filter (fun p => decide (p.1 ∈ idxs))).map Prod.snd) := by
    rw [← heq2]
    exact hperm1.map _
  refine ((List.Perm.append_left _ hperm3).trans ?_)
  have hfap := List.filter_append_perm
    (fun p => decide ((p : Nat × α).1 ∉ idxs)) l.enum
  have hnot : (fun p => !decide ((p : Nat × α).1 ∉ idxs)) =
      (fun p => decide (p.1 ∈ idxs)) := by
    funext p
    by_cases hp : p.1 ∈ idxs <;> simp [hp]
  rw [hnot] at hfap
  have := hfap.map Prod.snd
  rw [List.map_append] at this
  exact this.trans (by rw [List.enum_map_snd])

theorem applyMatches_ids (high : List Det) :
    ∀ (ms : List (Nat × Nat)) (l : List Track),
      (applyMatches l high ms).map Track.track_id = l.map Track.track_id := by
  intro ms
  unfold applyMatches
  induction ms with
  | nil => intro l; rfl
  | cons m tl ih =>
      intro l
      simp only [List.foldl_cons]
      rw [ih]
      rw [List.map_set]
      have hid : ((l.getD m.1 defaultTrack).update
          (high.getD m.2 defaultDet).box
          (high.getD m.2 defaultDet).conf).track_id =
          (l.getD m.1 defaultTrack).track_id := rfl
      rw [hid, ← List.getD_map l defaultTrack Track.track_id, set_getD_self]

theorem applyMatches_length (high : List Det) :
    ∀ (ms : List (Nat × Nat)) (l : List Track),
      (applyMatches l high ms).length = l.length := by
  intro ms
  unfold applyMatches
  induction ms with
  | nil => intro l; rfl
  | cons m tl ih =>
      intro l
      simp only [List.foldl_cons]
      rw [ih, List.length_set]

theorem createTracks_ids (high : List Det) (thresh : Rat) :
    ∀ (dIdxs : List Nat) (acc : List Track) (nid : Nat),
      ∃ new : List Track,
        (createTracks high thresh dIdxs acc nid).1 = acc ++ new ∧
        (createTracks high thresh dIdxs acc nid).2 = nid + new.length ∧
        new.map Track.track_id = List.range' nid new.length := by
  intro dIdxs
  unfold createTracks
  induction dIdxs with
  | nil => intro acc nid; exact ⟨[], by simp, by simp, rfl⟩
  | cons dIdx tl ih =>
      intro acc nid
      simp only [List.foldl_cons]
      by_cases hc : thresh ≤ (high.getD dIdx defaultDet).conf
      · rw [if_pos hc]
        obtain ⟨new', h1, h2, h3⟩ := ih
          (acc ++ [Track.new nid (high.getD dIdx defaultDet).box
            (high.getD dIdx defaultDet).conf]) (nid + 1)
        refine ⟨Track.new nid (high.getD dIdx defaultDet).box
          (high.getD dIdx defaultDet).conf :: new', ?_, ?_, ?_⟩
        · rw [h1, List.append_assoc]
          rfl
        · rw [h2, List.length_cons]
          omega
        · rw [List.map_cons, h3, List.length_cons, List.range'_succ]
          rfl
      · rw [if_neg hc]
        exact ih acc nid



theorem removeIdxs_perm (l : List Track) (idxs : List Nat)
    (hnd : idxs.Nodup) (hlt : ∀ i ∈ idxs, i < l.length) :
    List.Perm
      (removeIdxs l idxs ++ idxs.map (fun i => l.getD i defaultTrack)) l :=
  extract_filter_perm l defaultTrack idxs hnd hlt

theorem mem_sortSpec (l : List Cand) (a : Cand) :
    a ∈ sortSpec l ↔ a ∈ l := by
  unfold sortSpec
  suffices h : ∀ acc, a ∈ l.foldl (fun acc x => insortSpec x acc) acc ↔
      a ∈ acc ∨ a ∈ l by
    simpa using h []
  induction l with
  | nil => intro acc; simp
  | cons x xs ih =>
      intro acc
      simp only [List.foldl_cons, ih, mem_insortSpec, List.mem_cons]
      tauto

theorem specGreedy_fold_facts (T : Nat) (S : List Cand) :
    ∀ acc : List (Nat × Nat),
      (∀ c ∈ S, c.1 < T) →
      (acc.map Prod.fst).Nodup →
      (∀ p ∈ acc, p.1 < T) →
      ((S.foldl specGreedyStep acc).map Prod.fst).Nodup ∧
      (∀ p ∈ S.foldl specGreedyStep acc, p.1 < T) := by
  induction S with
  | nil => intro acc _ h1 h2; exact ⟨h1, h2⟩
  | cons c S' ih =>
      intro acc hb h1 h2
      simp only [List.foldl_cons]
      by_cases hc : c.1 ∉ acc.map Prod.fst ∧ c.2.1 ∉ acc.map Prod.snd
      · have hstep : specGreedyStep acc c = acc ++ [(c.1, c.2.1)] := by
          unfold specGreedyStep
          rw [if_pos hc]
        rw [hstep]
        apply ih
        · exact fun x hx => hb x (List.mem_cons_of_mem c hx)
        · rw [List.map_append]
          simp only [List.map_cons, List.map_nil]
          rw [List.nodup_append]
          exact ⟨h1, List.nodup_singleton _,
            fun a ha hcl => hc.1 ((List.mem_singleton.mp hcl) ▸ ha)⟩
        · intro p hp
          rcases List.mem_append.mp hp with hp | hp
          · exact h2 p hp
          · rcases List.mem_singleton.mp hp with rfl
            exact hb c (List.mem_cons_self c S')
      · have hstep : specGreedyStep acc c = acc := by
          unfold specGreedyStep
          rw [if_neg hc]
        rw [hstep]
        exact ih acc (fun x hx => hb x (List.mem_cons_of_mem c hx)) h1 h2

theorem associate_facts (dets : List Det) (tracks : List Track) (thr : Rat) :
    ((associate dets tracks thr).1.map Prod.fst).Nodup ∧
    (∀ p ∈ (associate dets tracks thr).1, p.1 < tracks.length) ∧
    (associate dets tracks thr).2.1.Nodup ∧
    (∀ i ∈ (associate dets tracks thr).2.1, i < tracks.length) := by
  rw [associate_eq_spec]
  unfold specAssociate
  dsimp only
  have hb : ∀ c ∈ sortSpec (candidates tracks.length dets.length
      (fun t d =>
        iou (tracks.getD t defaultTrack).bbox
          (dets.getD d defaultDet).box) thr), c.1 < tracks.length := by
    intro c hc
    exact (candidates_mem ((mem_sortSpec _ _).mp hc)).1
  have hg := specGreedy_fold_facts tracks.length
    (sortSpec (candidates tracks.length dets.length
      (fun t d =>
        iou (tracks.getD t defaultTrack).bbox
          (dets.getD d defaultDet).box) thr)) [] hb (by simp) (by simp)
  refine ⟨hg.1, hg.2, (List.nodup_range tracks.length).filter _, ?_⟩
  intro i hi
  rw [List.mem_filter, List.mem_range] at hi
  exact hi.1

theorem updateTrackedPhase_ids (bt : ByteTracker) (high : List Det) :
    ∃ k : Nat,
      (bt.updateTrackedPhase high).2.2.2 = bt.next_id + k ∧
      ((((bt.updateTrackedPhase high).1.map Track.track_id : List Nat) :
          Multiset Nat) +
        (((bt.updateTrackedPhase high).2.1.map Track.track_id : List Nat) :
          Multiset Nat) +
        (((bt.updateTrackedPhase high).2.2.1.map Track.track_id : List Nat) :
          Multiset Nat)) =
      ((bt.tracked_tracks.map Track.track_id : List Nat) : Multiset Nat) +
        ((bt.lost_tracks.map Track.track_id : List Nat) : Multiset Nat) +
        ((bt.removed_tracks.map Track.track_id : List Nat) : Multiset Nat) +
        ((List.range' bt.next_id k : List Nat) : Multiset Nat) := by
  unfold ByteTracker.updateTrackedPhase
  dsimp only
  set tracked1 := bt.tracked_tracks.map
    (fun t => { t with time_since_update := t.time_since_update + 1 })
    with htr1
  set assoc := associate high tracked1 bt.iou_threshold with hassoc
  set tracked2 := applyMatches tracked1 high assoc.1 with htr2
  have hfacts := associate_facts high tracked1 bt.iou_threshold
  rw [← hassoc] at hfacts
  have hids2 : tracked2.map Track.track_id =
      bt.tracked_tracks.map Track.track_id := by
    rw [htr2, applyMatches_ids, htr1, List.map_map]
    rfl
  have hlen2 : tracked2.length = tracked1.length := by
    rw [htr2, applyMatches_length]
  have hub : ∀ i ∈ assoc.2.1, i < tracked2.length := by
    intro i hi
    rw [hlen2]
    exact hfacts.2.2.2 i hi
  have hperm := removeIdxs_perm tracked2 assoc.2.1 hfacts.2.2.1 hub
  have helems : (assoc.2.1.filter
      (fun i => decide (i < tracked2.length))).map
      (fun i => tracked2.getD i defaultTrack) =
      assoc.2.1.map (fun i => tracked2.getD i defaultTrack) := by
    refine congrArg _ ?_
    exact List.filter_eq_self.mpr (fun i hi => by simpa using hub i hi)
  rw [helems]
  set elems := assoc.2.1.map (fun i => tracked2.getD i defaultTrack)
    with helemsdef
  have hsplit : List.Perm
      ((elems.filter (fun t => decide (bt.max_age < t.time_since_update))) ++
        (elems.filter (fun t => decide (t.time_since_update ≤ bt.max_age))))
      elems := by
    have h := List.filter_append_perm
      (fun t => decide (bt.max_age < (t : Track).time_since_update)) elems
    have hnoteq : (fun t => !decide (bt.max_age < (t : Track).time_since_update)) =
        (fun t => decide ((t : Track).time_since_update ≤ bt.max_age)) := by
      funext t
      by_cases hx : bt.max_age < t.time_since_update
      · have hx2 : ¬ t.time_since_update ≤ bt.max_age := by omega
        simp [hx, hx2]
      · have hx2 : t.time_since_update ≤ bt.max_age := by omega
        simp [hx, hx2]
    rw [hnoteq] at h
    exact h
  obtain ⟨new, hn1, hn2, hn3⟩ := createTracks_ids high bt.high_thresh
    assoc.2.2 (removeIdxs tracked2 assoc.2.1) bt.next_id
  refine ⟨new.length, hn2, ?_⟩
  rw [hn1]
  -- Transform the permutations into multiset equalities of the id lists.
  have hA : ((((removeIdxs tracked2 assoc.2.1).map Track.track_id : List Nat) :
      Multiset Nat) + ((elems.map Track.track_id : List Nat) : Multiset Nat)) =
      ((tracked2.map Track.track_id : List Nat) : Multiset Nat) := by
    have := (hperm.map Track.track_id)
    rw [List.map_append] at this
    rw [← Multiset.coe_eq_coe] at this
    rw [← Multiset.coe_add] at this
    exact this
  have hB : (((elems.filter
      (fun t => decide (bt.max_age < t.time_since_update))).map Track.track_id :
        List Nat) : Multiset Nat) +
      (((elems.filter
        (fun t => decide (t.time_since_update ≤ bt.max_age))).map Track.track_id :
          List Nat) : Multiset Nat) =
      ((elems.map Track.track_id : List Nat) : Multiset Nat) := by
    have := (hsplit.map Track.track_id)
    rw [List.map_append] at this
    rw [← Multiset.coe_eq_coe] at this
    rw [← Multiset.coe_add] at this
    exact this
  simp only [List.map_append, ← Multiset.coe_add]
  rw [hn3, ← hids2, ← hA, ← hB]
  abel

theorem updateLostPhase_ids (bt : ByteTracker) (low : List Det)
    (tracked4 lost1 : List Track) :
    ((((bt.updateLostPhase low tracked4 lost1).1.map Track.track_id :
        List Nat) : Multiset Nat) +
      (((bt.updateLostPhase low tracked4 lost1).2.map Track.track_id :
        List Nat) : Multiset Nat)) ≤
    ((tracked4.map Track.track_id : List Nat) : Multiset Nat) +
      ((lost1.map Track.track_id : List Nat) : Multiset Nat) := by
  unfold ByteTracker.updateLostPhase
  dsimp only
  set assocLow := associate low lost1 bt.iou_threshold with hassoc
  have hfacts := associate_facts low lost1 bt.iou_threshold
  rw [← hassoc] at hfacts
  have hnd : (assocLow.1.map Prod.fst).Nodup := hfacts.1
  have hbounds : ∀ i ∈ assocLow.1.map Prod.fst, i < lost1.length := by
    intro i hi
    rw [List.mem_map] at hi
    rcases hi with ⟨p, hp, rfl⟩
    exact hfacts.2.1 p hp
  have hperm := removeIdxs_perm lost1 (assocLow.1.map Prod.fst) hnd hbounds
  have hreact : (assocLow.1.map
      (fun m =>
        let det := low.getD m.2 defaultDet
        (lost1.getD m.1 defaultTrack).update det.box det.conf)).map
          Track.track_id =
      (((assocLow.1.map Prod.fst).map
        (fun i => lost1.getD i defaultTrack)).map Track.track_id) := by
    rw [List.map_map, List.map_map, List.map_map]
    rfl
  have hA : ((((removeIdxs lost1 (assocLow.1.map Prod.fst)).map
      Track.track_id : List Nat) : Multiset Nat) +
      ((((assocLow.1.map Prod.fst).map
        (fun i => lost1.getD i defaultTrack)).map Track.track_id :
          List Nat) : Multiset Nat)) =
      ((lost1.map Track.track_id : List Nat) : Multiset Nat) := by
    have := hperm.map Track.track_id
    rw [List.map_append] at this
    rw [← Multiset.coe_eq_coe] at this
    rw [← Multiset.coe_add] at this
    exact this
  have hsub : ((((removeIdxs lost1 (assocLow.1.map Prod.fst)).filter
      (fun t => decide (t.time_since_update ≤ bt.max_age))).map
        Track.track_id : List Nat) : Multiset Nat) ≤
      (((removeIdxs lost1 (assocLow.1.map Prod.fst)).map Track.track_id :
        List Nat) : Multiset Nat) := by
    rw [Multiset.coe_le]
    exact ((List.filter_sublist _).map Track.track_id).subperm
  simp only [List.map_append, ← Multiset.coe_add]
  rw [hreact]
  calc ((tracked4.map Track.track_id : List Nat) : Multiset Nat) +
        ((((assocLow.1.map Prod.fst).map
          (fun i => lost1.getD i defaultTrack)).map Track.track_id :
            List Nat) : Multiset Nat) +
        ((((removeIdxs lost1 (assocLow.1.map Prod.fst)).filter
          (fun t => decide (t.time_since_update ≤ bt.max_age))).map
            Track.track_id : List Nat) : Multiset Nat)
      ≤ ((tracked4.map Track.track_id : List Nat) : Multiset Nat) +
        ((((assocLow.1.map Prod.fst).map
          (fun i => lost1.getD i defaultTrack)).map Track.track_id :
            List Nat) : Multiset Nat) +
        (((removeIdxs lost1 (assocLow.1.map Prod.fst)).map Track.track_id :
          List Nat) : Multiset Nat) := by
        exact add_le_add_left hsub _
    _ = ((tracked4.map Track.track_id : List Nat) : Multiset Nat) +
        ((lost1.map Track.track_id : List Nat) : Multiset Nat) := by
        rw [add_assoc, add_comm
          (((((assocLow.1.map Prod.fst).map
            (fun i => lost1.getD i defaultTrack)).map Track.track_id :
              List Nat) : Multiset Nat))
          ((((removeIdxs lost1 (assocLow.1.map Prod.fst)).map Track.track_id :
            List Nat) : Multiset Nat)), hA]

theorem update_ids_le (bt : ByteTracker) (dets : List Det) :
    ∃ k : Nat,
      (bt.update dets).2.next_id = bt.next_id + k ∧
      ((allIds (bt.update dets).2 : List Nat) : Multiset Nat) ≤
        ((allIds bt ++ List.range' bt.next_id k : List Nat) : Multiset Nat) := by
  unfold ByteTracker.update
  dsimp only
  set btf : ByteTracker := { bt with frame_count := bt.frame_count + 1 }
    with hbtf
  set high : List Det := dets.filter (fun d => decide (bt.high_thresh ≤ d.conf))
    with hhigh
  set low : List Det := dets.filter
    (fun d => decide (d.conf < bt.high_thresh ∧ bt.track_thresh ≤ d.conf))
    with hlow
  obtain ⟨k, hk, heq⟩ := updateTrackedPhase_ids btf high
  have hbtfields : btf.tracked_tracks = bt.tracked_tracks ∧
      btf.lost_tracks = bt.lost_tracks ∧
      btf.removed_tracks = bt.removed_tracks ∧
      btf.next_id = bt.next_id := ⟨rfl, rfl, rfl, rfl⟩
  rw [hbtfields.1, hbtfields.2.1, hbtfields.2.2.1, hbtfields.2.2.2] at heq
  rw [hbtfields.2.2.2] at hk
  have hle := updateLostPhase_ids btf low (btf.updateTrackedPhase high).1
    (btf.updateTrackedPhase high).2.1
  refine ⟨k, hk, ?_⟩
  unfold allIds
  dsimp only
  simp only [List.map_append, ← Multiset.coe_add]
  calc ((((btf.updateLostPhase low (btf.updateTrackedPhase high).1
            (btf.updateTrackedPhase high).2.1).1.map Track.track_id :
          List Nat) : Multiset Nat) +
        (((btf.updateLostPhase low (btf.updateTrackedPhase high).1
            (btf.updateTrackedPhase high).2.1).2.map Track.track_id :
          List Nat) : Multiset Nat)) +
        (((btf.updateTrackedPhase high).2.2.1.map Track.track_id :
          List Nat) : Multiset Nat)
      ≤ ((((btf.updateTrackedPhase high).1.map Track.track_id :
          List Nat) : Multiset Nat) +
        (((btf.updateTrackedPhase high).2.1.map Track.track_id :
          List Nat) : Multiset Nat)) +
        (((btf.updateTrackedPhase high).2.2.1.map Track.track_id :
          List Nat) : Multiset Nat) := add_le_add_right hle _
    _ = _ := heq

theorem tracker_init_inv (max_age min_hits : Nat)
    (it tt ht mt : Rat) :
    TrackerInv (ByteTracker.init max_age min_hits it tt ht mt) := by
  constructor
  · simp [allIds, ByteTracker.init]
  · intro i hi
    simp [allIds, ByteTracker.init] at hi

/-- C8: track ids are strictly increasing and never reused.  A fresh tracker
satisfies the id invariant (all held ids distinct and below `next_id`); the
invariant is preserved by every `update` call; `next_id` never decreases; and
every id appearing after a call that was not held before is at least the old
`next_id`, hence strictly greater than every id allocated earlier. -/
theorem c8_track_ids_fresh :
    (∀ (max_age min_hits : Nat) (it tt ht mt : Rat),
      TrackerInv (ByteTracker.init max_age min_hits it tt ht mt)) ∧
    (∀ (bt : ByteTracker) (dets : List Det), TrackerInv bt →
      TrackerInv (bt.update dets).2 ∧
      bt.next_id ≤ (bt.update dets).2.next_id ∧
      (∀ i ∈ allIds (bt.update dets).2, i ∉ allIds bt → bt.next_id ≤ i)) := by
  refine ⟨tracker_init_inv, ?_⟩
  intro bt dets hinv
  obtain ⟨k, hk, hle⟩ := update_ids_le bt dets
  have htarget : (allIds bt ++ List.range' bt.next_id k).Nodup := by
    rw [List.nodup_append]
    refine ⟨hinv.1, List.nodup_range' _ _, ?_⟩
    intro a ha hb
    have h1 := hinv.2 a ha
    have h2 := (List.mem_range'_1.mp hb).1
    omega
  have hmem : ∀ i ∈ allIds (bt.update dets).2,
      i ∈ allIds bt ∨ i ∈ List.range' bt.next_id k := by
    intro i hi
    have h := Multiset.mem_of_le hle (Multiset.mem_coe.mpr hi)
    rw [Multiset.mem_coe, List.mem_append] at h
    exact h
  refine ⟨⟨?_, ?_⟩, ?_, ?_⟩
  · exact Multiset.coe_nodup.mp
      (Multiset.nodup_of_le hle (Multiset.coe_nodup.mpr htarget))
  · intro i hi
    rcases hmem i hi with h | h
    · have := hinv.2 i h
      rw [hk]
      omega
    · have := (List.mem_range'_1.mp h).2
      rw [hk]
      omega
  · rw [hk]
    omega
  · intro i hi hnot
    rcases hmem i hi with h | h
    · exact absurd h hnot
    · exact (List.mem_range'_1.mp h).1

/-- Witness for the C8 theorem: the invariant holds for the default tracker
and is preserved by a concrete update call. -/
theorem c8_track_ids_witness :
    TrackerInv (ByteTracker.initDefault.update [demoDet]).2 ∧
      ByteTracker.initDefault.next_id ≤
        (ByteTracker.initDefault.update [demoDet]).2.next_id :=
  have h := c8_track_ids_fresh.2 ByteTracker.initDefault [demoDet]
    (c8_track_ids_fresh.1 30 3 (mkRat 3 10) (mkRat 5 10) (mkRat 6 10)
      (mkRat 8 10))
  ⟨h.1, h.2.1⟩

end PeopleCounter
